import Mathlib

/-!
Verification of the netflix-metadata-extractor core against its specification.

The development shallowly embeds the repository's core (src/src/extractor.py and
src/src/evaluation.py) in Lean:

* `Json`, `Json.render`, `loads` model the structured values handled by the
  Python `json` module.  Restrictions of the embedding: numbers are integers
  (floating point is out of scope), `\uXXXX` escapes are not modelled, and
  case folding models ASCII `str.lower`.  The renderer mirrors `json.dumps`
  with its default separators and escapes.
* `clean_json_response`, `parse_response` model
  `NetflixExtractor._clean_json_response` / `_parse_response`, including the
  two `re.sub` passes that delete fenced code-block markers anywhere.
* `validate` models Pydantic validation of `ContentMetadata` (required fields
  with type checks, `content_warnings` defaulting to `[]`, extra keys
  ignored, all field errors collected); `runAttempt` models one
  parse-then-validate cycle inside `extract`, distinguishing caught errors
  (`ValueError` / `ValidationError`) from the uncaught `TypeError` raised by
  `ContentMetadata(**data)` when the parsed JSON is not a mapping.
* `extractE` models `NetflixExtractor.extract` over an attempt-indexed
  model-call collaborator that either returns response text or fails with a
  service error (which the code does not catch).
* `extract_batch`, `schema_compliance_rate`, `overall_success_rate`,
  `retry_rate`, `genre_accuracy`, `manual_accuracy` model the batch runner
  and the evaluation scorers, with scores in `ℚ`.

The exact message texts produced by external libraries
(`json.JSONDecodeError`, Pydantic's error rendering, Python's `TypeError`)
are modelled only up to their presence; `decodeDetail`, `vErrText`,
`typeErrorMsg` stand for them.
-/

/-! ## Characters and Python string helpers -/

/-- The backtick character. -/
def tick : Char := Char.ofNat 96

/-- Whitespace as matched by Python's regex `\s` and by `str.strip` (ASCII part). -/
def pyWs (c : Char) : Bool :=
  c == ' ' || c == '\t' || c == '\n' || c == '\r' || c == '\x0b' || c == '\x0c'

/-- Whitespace skipped between JSON tokens by `json.loads`. -/
def isJsonWs (c : Char) : Bool :=
  c == ' ' || c == '\t' || c == '\n' || c == '\r'

/-- ASCII lower-casing of one character, modelling `str.lower` per character. -/
def lowChar (c : Char) : Char := c.toLower

/-- Model of Python `str.lower` (ASCII fragment). -/
def pyLower (s : String) : String := ⟨s.data.map lowChar⟩

/-- Strip `pyWs` characters from both ends, modelling `str.strip`. -/
def stripChars (s : List Char) : List Char :=
  ((s.dropWhile pyWs).reverse.dropWhile pyWs).reverse

/-- Model of Python `str.strip`. -/
def pyStrip (s : String) : String := ⟨stripChars s.data⟩

/-- Helper for `pySplitComma`: accumulate the current piece (reversed). -/
def splitCommaAux : List Char → List Char → List String
  | [], acc => [⟨acc.reverse⟩]
  | c :: cs, acc => if c = ',' then ⟨acc.reverse⟩ :: splitCommaAux cs [] else splitCommaAux cs (c :: acc)

/-- Model of Python `str.split(",")` (keeps empty pieces; `"" ↦ [""]`). -/
def pySplitComma (s : List Char) : List String := splitCommaAux s []

/-- Decimal digit character for `d < 10`. -/
def digitChar (d : Nat) : Char := Char.ofNat (48 + d)

/-- Numeric value of a decimal digit character. -/
def digitVal (c : Char) : Nat := c.toNat - 48

/-- Decimal rendering of a natural number, with explicit fuel (`fuel > n` suffices). -/
def natDigitsF : Nat → Nat → List Char
  | 0, _ => []
  | f + 1, n => if n < 10 then [digitChar n] else natDigitsF f (n / 10) ++ [digitChar (n % 10)]

/-- Decimal digits of a natural number, most significant first. -/
def natDigits (n : Nat) : List Char := natDigitsF (n + 1) n

/-- Decimal rendering of a natural number as a string. -/
def natStr (n : Nat) : String := ⟨natDigits n⟩

/-- Decimal rendering of an integer (used by the JSON renderer). -/
def intChars (i : Int) : List Char :=
  if i < 0 then '-' :: natDigits (-i).toNat else natDigits i.toNat

/-! ## The two `re.sub` passes of `_clean_json_response` -/

/-- `matchesAt pat s` holds when `pat` is a prefix of `s`. -/
def matchesAt : List Char → List Char → Bool
  | [], _ => true
  | _ :: _, [] => false
  | p :: ps, c :: cs => p == c && matchesAt ps cs

/-- One `re.sub(pat + r"\s*", "", s)` pass: scan left to right, delete each
leftmost occurrence of `pat` together with the greedy run of `\s` characters
after it, and resume scanning after the deleted region.  `fuel ≥ s.length`
makes the fuel irrelevant. -/
def subPass (pat : List Char) : Nat → List Char → List Char
  | _, [] => []
  | 0, s => s
  | f + 1, c :: cs =>
    if matchesAt pat (c :: cs) then
      subPass pat f ((List.drop pat.length (c :: cs)).dropWhile pyWs)
    else c :: subPass pat f cs

/-- Run a substitution pass with enough fuel. -/
def runPass (pat : List Char) (s : List Char) : List Char := subPass pat s.length s

/-- The pattern of the first pass, ```` ```json ````. -/
def fenceJsonPat : List Char := [tick, tick, tick, 'j', 's', 'o', 'n']

/-- The pattern of the second pass, ```` ``` ````. -/
def fencePat : List Char := [tick, tick, tick]

/-! ## JSON values -/

/-- Structured values as handled by Python's `json` module (numbers restricted
to integers; see the file comment). -/
inductive Json where
  | null
  | bool (b : Bool)
  | num (n : Int)
  | str (s : String)
  | arr (elems : List Json)
  | obj (fields : List (String × Json))

/-- json.dumps escaping of one string character (the short escapes; other
characters are kept literally, see the file comment). -/
def escChar (c : Char) : List Char :=
  if c = '"' then ['\\', '"']
  else if c = '\\' then ['\\', '\\']
  else if c = '\n' then ['\\', 'n']
  else if c = '\t' then ['\\', 't']
  else if c = '\r' then ['\\', 'r']
  else if c = '\x08' then ['\\', 'b']
  else if c = '\x0c' then ['\\', 'f']
  else [c]

/-- Escape a whole string body. -/
def escape : List Char → List Char
  | [] => []
  | c :: cs => escChar c ++ escape cs

/-- Rendering of a JSON string literal. -/
def strChars (s : String) : List Char := '"' :: escape s.data ++ ['"']

mutual

/-- Model of `json.dumps` (default separators `", "` and `": "`), as characters. -/
def Json.render : Json → List Char
  | .null => "null".data
  | .bool true => "true".data
  | .bool false => "false".data
  | .num i => intChars i
  | .str s => strChars s
  | .arr xs => '[' :: renderElems xs ++ [']']
  | .obj kvs => '{' :: renderFields kvs ++ ['}']

/-- Array elements joined by `", "`. -/
def renderElems : List Json → List Char
  | [] => []
  | [x] => x.render
  | x :: y :: ys => x.render ++ ',' :: ' ' :: renderElems (y :: ys)

/-- Object fields `"key": value` joined by `", "`. -/
def renderFields : List (String × Json) → List Char
  | [] => []
  | [(k, v)] => strChars k ++ ':' :: ' ' :: v.render
  | (k, v) :: kv :: kvs => strChars k ++ ':' :: ' ' :: v.render ++ ',' :: ' ' :: renderFields (kv :: kvs)

end

/-- Model of `json.dumps` as a string. -/
def Json.dumps (v : Json) : String := ⟨v.render⟩

mutual

/-- A size measure on JSON values, used as parser fuel bound and for induction. -/
def jsize : Json → Nat
  | .null => 1
  | .bool _ => 1
  | .num _ => 1
  | .str _ => 1
  | .arr xs => 1 + jsizeList xs
  | .obj kvs => 1 + jsizeFields kvs

/-- Size of an element list. -/
def jsizeList : List Json → Nat
  | [] => 1
  | x :: xs => 1 + jsize x + jsizeList xs

/-- Size of a field list. -/
def jsizeFields : List (String × Json) → Nat
  | [] => 1
  | (_, v) :: kvs => 1 + jsize v + jsizeFields kvs

end

/-- No duplicate keys in a key list (Python dicts cannot hold duplicates). -/
def nodupKeys : List String → Bool
  | [] => true
  | k :: ks => !(ks.contains k) && nodupKeys ks

mutual

/-- Well-formedness: every object has duplicate-free keys.  Exactly the JSON
values that arise from Python values. -/
def Json.wf : Json → Bool
  | .null => true
  | .bool _ => true
  | .num _ => true
  | .str _ => true
  | .arr xs => wfList xs
  | .obj kvs => nodupKeys (kvs.map Prod.fst) && wfFields kvs

/-- Well-formedness of an element list. -/
def wfList : List Json → Bool
  | [] => true
  | x :: xs => x.wf && wfList xs

/-- Well-formedness of a field list. -/
def wfFields : List (String × Json) → Bool
  | [] => true
  | (_, v) :: kvs => v.wf && wfFields kvs

end

/-! ## The JSON parser (model of `json.loads`) -/

/-- Skip inter-token whitespace. -/
def skipWs (s : List Char) : List Char := s.dropWhile isJsonWs

/-- Decode one escape character of a JSON string literal. -/
def unescChar (c : Char) : Option Char :=
  if c = '"' then some '"'
  else if c = '\\' then some '\\'
  else if c = '/' then some '/'
  else if c = 'n' then some '\n'
  else if c = 't' then some '\t'
  else if c = 'r' then some '\r'
  else if c = 'b' then some '\x08'
  else if c = 'f' then some '\x0c'
  else none

/-- Parse a string literal body after the opening quote; returns the decoded
characters and the input after the closing quote. -/
def parseStrAux : List Char → Option (List Char × List Char)
  | [] => none
  | c :: cs =>
    if c = '"' then some ([], cs)
    else if c = '\\' then
      match cs with
      | [] => none
      | d :: cs2 =>
        match unescChar d with
        | some e => (parseStrAux cs2).map (fun p => (e :: p.1, p.2))
        | none => none
    else (parseStrAux cs).map (fun p => (c :: p.1, p.2))

/-- Consume a run of decimal digits, extending the accumulator. -/
def parseNatAux : List Char → Nat → Nat × List Char
  | [], acc => (acc, [])
  | c :: cs, acc => if c.isDigit then parseNatAux cs (acc * 10 + digitVal c) else (acc, c :: cs)

/-- Parse one or more decimal digits. -/
def parseNum : List Char → Option (Nat × List Char)
  | [] => none
  | c :: cs => if c.isDigit then some (parseNatAux cs (digitVal c)) else none

/-- Parse the literals `null`, `true`, `false`. -/
def parseLit : List Char → Option (Json × List Char)
  | 'n' :: 'u' :: 'l' :: 'l' :: rest => some (.null, rest)
  | 't' :: 'r' :: 'u' :: 'e' :: rest => some (.bool true, rest)
  | 'f' :: 'a' :: 'l' :: 's' :: 'e' :: rest => some (.bool false, rest)
  | _ => none

mutual

/-- Parse one JSON value (leading whitespace must already be skipped).
Restrictions relative to `json.loads` are listed in the file comment. -/
def parseVal : Nat → List Char → Option (Json × List Char)
  | 0, _ => none
  | _, [] => none
  | fuel + 1, c :: cs =>
    if c = '"' then (parseStrAux cs).map (fun p => (.str ⟨p.1⟩, p.2))
    else if c = '[' then
      match skipWs cs with
      | [] => none
      | d :: r =>
        if d = ']' then some (.arr [], r)
        else (parseElems fuel (d :: r)).map (fun p => (.arr p.1, p.2))
    else if c = '{' then
      match skipWs cs with
      | [] => none
      | d :: r =>
        if d = '}' then some (.obj [], r)
        else (parseFields fuel (d :: r)).map (fun p => (.obj p.1, p.2))
    else if c = '-' then (parseNum cs).map (fun p => (.num (-(p.1 : Int)), p.2))
    else if c.isDigit then (parseNum (c :: cs)).map (fun p => (.num (p.1 : Int), p.2))
    else parseLit (c :: cs)

/-- Parse a nonempty comma-separated element list and the closing `]`. -/
def parseElems : Nat → List Char → Option (List Json × List Char)
  | 0, _ => none
  | fuel + 1, s =>
    match parseVal fuel s with
    | none => none
    | some (v, r) =>
      match skipWs r with
      | [] => none
      | d :: r2 =>
        if d = ',' then (parseElems fuel (skipWs r2)).map (fun p => (v :: p.1, p.2))
        else if d = ']' then some ([v], r2)
        else none

/-- Parse a nonempty field list and the closing `}`.  Duplicate keys are kept
in the list; lookups take the last occurrence, as a Python dict would. -/
def parseFields : Nat → List Char → Option (List (String × Json) × List Char)
  | 0, _ => none
  | fuel + 1, s =>
    match s with
    | [] => none
    | c :: cs =>
      if c = '"' then
        match parseStrAux cs with
        | none => none
        | some (k, r1) =>
          match skipWs r1 with
          | [] => none
          | d :: r2 =>
            if d = ':' then
              match parseVal fuel (skipWs r2) with
              | none => none
              | some (v, r3) =>
                match skipWs r3 with
                | [] => none
                | e :: r4 =>
                  if e = ',' then (parseFields fuel (skipWs r4)).map (fun p => ((⟨k⟩, v) :: p.1, p.2))
                  else if e = '}' then some ([(⟨k⟩, v)], r4)
                  else none
            else none
      else none

end

/-- Model of `json.loads`: parse a whole document, allowing surrounding
whitespace, rejecting trailing content. -/
def loads (s : String) : Option Json :=
  let t := skipWs s.data
  match parseVal (2 * t.length + 2) t with
  | none => none
  | some (v, rest) => if skipWs rest = [] then some v else none

/-! ## `_clean_json_response` and `_parse_response` -/

/-- Model of `NetflixExtractor._clean_json_response`: the two `re.sub` passes
(```` ```json\s* ```` first, then ```` ```\s* ````) followed by `str.strip`. -/
def clean_json_response (response : String) : String :=
  ⟨stripChars (runPass fencePat (runPass fenceJsonPat response.data))⟩

/-- Stand-in for `str(json.JSONDecodeError)`; only its presence is modelled. -/
def decodeDetail (_cleaned : String) : String := "Expecting value"

/-- The `ValueError` message `_parse_response` raises: it carries the decoder
detail and the cleaned text. -/
def invalidJsonMsg (detail cleaned : String) : String :=
  "Invalid JSON response: " ++ detail ++ "\nResponse was: " ++ cleaned

/-- Model of `NetflixExtractor._parse_response`: clean, then `json.loads`,
raising (returning) a `ValueError` whose message carries the syntax-error
detail and the cleaned text. -/
def parse_response (response : String) : Except String Json :=
  let cleaned := clean_json_response response
  match loads cleaned with
  | some v => .ok v
  | none => .error (invalidJsonMsg (decodeDetail cleaned) cleaned)

/-! ## Schema validation (`ContentMetadata`, model of `_validate`) -/

/-- The validated record produced by one extraction (src/src/schemas.py). -/
structure ContentMetadata where
  genres : List String
  themes : List String
  mood : String
  target_audience : String
  content_warnings : List String
deriving DecidableEq, Repr

/-- A single Pydantic field error, with the field it names. -/
inductive VErr where
  | missing (field : String)
  | wrongType (field : String)
deriving DecidableEq, Repr

/-- The field a validation error names. -/
def VErr.fieldName : VErr → String
  | .missing f => f
  | .wrongType f => f

/-- Dict lookup on parsed JSON object fields: the last binding of a key wins,
as in the dict built by `json.loads`. -/
def objGet (kvs : List (String × Json)) (k : String) : Option Json :=
  (kvs.reverse.find? (fun kv => kv.1 == k)).map (fun kv => kv.2)

/-- Decode a JSON array of strings (`list[str]`; Pydantic coerces nothing else). -/
def asStrs : List Json → Option (List String)
  | [] => some []
  | .str s :: rest => (asStrs rest).map (fun l => s :: l)
  | _ => none

/-- Decode a JSON value as `list[str]`. -/
def asStrList : Json → Option (List String)
  | .arr xs => asStrs xs
  | _ => none

/-- Decode a JSON value as `str`. -/
def asStr : Json → Option String
  | .str s => some s
  | _ => none

/-- Check a required `list[str]` field. -/
def reqStrList (kvs : List (String × Json)) (name : String) : Except VErr (List String) :=
  match objGet kvs name with
  | none => .error (.missing name)
  | some v =>
    match asStrList v with
    | some l => .ok l
    | none => .error (.wrongType name)

/-- Check a required `str` field. -/
def reqStr (kvs : List (String × Json)) (name : String) : Except VErr String :=
  match objGet kvs name with
  | none => .error (.missing name)
  | some v =>
    match asStr v with
    | some s => .ok s
    | none => .error (.wrongType name)

/-- Check the optional `content_warnings` field (defaults to the empty list
when absent; when present it must be `list[str]`). -/
def optStrList (kvs : List (String × Json)) (name : String) : Except VErr (List String) :=
  match objGet kvs name with
  | none => .ok []
  | some v =>
    match asStrList v with
    | some l => .ok l
    | none => .error (.wrongType name)

/-- The error of a failed check, if any. -/
def errOf {α : Type} : Except VErr α → List VErr
  | .error e => [e]
  | .ok _ => []

/-- Field name constants. -/
def genresKey : String := "genres"

/-- Field name constant. -/
def themesKey : String := "themes"

/-- Field name constant. -/
def moodKey : String := "mood"

/-- Field name constant. -/
def audienceKey : String := "target_audience"

/-- Field name constant. -/
def warningsKey : String := "content_warnings"

/-- All field errors of a mapping, in field declaration order, as Pydantic
collects them. -/
def vErrs (kvs : List (String × Json)) : List VErr :=
  errOf (reqStrList kvs genresKey) ++ errOf (reqStrList kvs themesKey) ++
  errOf (reqStr kvs moodKey) ++ errOf (reqStr kvs audienceKey) ++
  errOf (optStrList kvs warningsKey)

/-- Model of Pydantic validation `ContentMetadata(**data)` on a mapping:
requires `genres`, `themes` (`list[str]`), `mood`, `target_audience` (`str`);
`content_warnings` defaults to `[]`; extra keys are ignored; on failure all
field errors are reported. -/
def validate (kvs : List (String × Json)) : Except (List VErr) ContentMetadata :=
  match reqStrList kvs genresKey, reqStrList kvs themesKey, reqStr kvs moodKey,
        reqStr kvs audienceKey, optStrList kvs warningsKey with
  | .ok g, .ok t, .ok mo, .ok au, .ok cw => .ok ⟨g, t, mo, au, cw⟩
  | _, _, _, _, _ => .error (vErrs kvs)

/-! ## The extraction engine (`extract`) -/

/-- Stand-in for the Pydantic `ValidationError` message text. -/
def vErrText : VErr → String
  | .missing f => "Field required: " ++ f
  | .wrongType f => "Input should match the field type: " ++ f

/-- Join strings with a separator. -/
def joinSep (sep : String) : List String → String
  | [] => ""
  | [x] => x
  | x :: y :: ys => x ++ sep ++ joinSep sep (y :: ys)

/-- Stand-in for `str` of a Pydantic `ValidationError`. -/
def validationErrorStr (errs : List VErr) : String :=
  "validation error for ContentMetadata: " ++ joinSep "; " (errs.map vErrText)

/-- Stand-in for the `TypeError` message of `ContentMetadata(**data)` when
`data` is not a mapping.  `extract` does not catch `TypeError`. -/
def typeErrorMsg : String := "argument after ** must be a mapping"

/-- Outcome of one parse-then-validate cycle on response text, split by how
`extract`'s `except (ValueError, ValidationError, json.JSONDecodeError)`
clause treats the exception. -/
inductive AttemptOut where
  | ok (md : ContentMetadata)
  | caught (msg : String)
  | uncaught (msg : String)
deriving DecidableEq, Repr

/-- Whether the attempt raised an exception `extract` does not catch. -/
def AttemptOut.isUncaught : AttemptOut → Bool
  | .uncaught _ => true
  | _ => false

/-- Whether the attempt raised an exception `extract` catches. -/
def AttemptOut.isCaught : AttemptOut → Bool
  | .caught _ => true
  | _ => false

/-- One attempt of `extract` on raw response text: `_parse_response` then
`_validate` (which is `ContentMetadata(**data)`, raising an uncaught
`TypeError` when the parsed value is not a mapping). -/
def runAttempt (raw : String) : AttemptOut :=
  match parse_response raw with
  | .error msg => .caught msg
  | .ok (.obj kvs) =>
    match validate kvs with
    | .ok md => .ok md
    | .error errs => .caught (validationErrorStr errs)
  | .ok _ => .uncaught typeErrorMsg

/-- The result envelope returned by `extract`. -/
structure Envelope where
  metadata : Option ContentMetadata
  raw_response : Option String
  retries : Nat
  success : Bool
  error : Option String
deriving DecidableEq, Repr

/-- `self.max_retries` as set in `NetflixExtractor.__init__`. -/
def maxRetries : Nat := 2

/-- The loop of `extract`: `left` attempts remain, `k` is the current attempt
index, `lastErr` and `lastRaw` are the last caught error message and the last
raw response text.  A service error from the model call, or an uncaught
exception inside an attempt, propagates as `.error`. -/
def extractGo (call : Nat → Except String String) :
    Nat → Nat → Option String → Option String → Except String Envelope
  | 0, _, lastErr, lastRaw => .ok ⟨none, lastRaw, maxRetries, false, lastErr⟩
  | left + 1, k, _, _ =>
    match call k with
    | .error svc => .error svc
    | .ok raw =>
      match runAttempt raw with
      | .ok md => .ok ⟨some md, some raw, k, true, none⟩
      | .caught msg => extractGo call left (k + 1) (some msg) (some raw)
      | .uncaught msg => .error msg

/-- Model of `NetflixExtractor.extract` over an attempt-indexed model-call
collaborator: `call k` is attempt `k`'s response text, or a service error
(which the code does not catch).  `.ok env` is a returned envelope; `.error`
is an exception escaping to the caller. -/
def extractE (call : Nat → Except String String) : Except String Envelope :=
  extractGo call (1 + maxRetries) 0 none none

/-- `extract` for a collaborator that always returns text. -/
def extractT (call : Nat → String) : Except String Envelope :=
  extractE (fun k => .ok (call k))

/-- Response text whose cleaned form is not valid JSON. -/
def unparsable (raw : String) : Prop := loads (clean_json_response raw) = none

/-- The `ValueError` message `_parse_response` produces for `raw`. -/
def parseMsg (raw : String) : String :=
  invalidJsonMsg (decodeDetail (clean_json_response raw)) (clean_json_response raw)

/-! ## The batch runner (`extract_batch`) -/

/-- One input item of `extract_batch`: a dict that may carry `title` and
`description` keys. -/
structure BatchItem where
  title? : Option String
  description? : Option String
deriving DecidableEq, Repr

/-- `item.get("title", f"Item \x7bi+1\x7d")`. -/
def itemTitle (i : Nat) (it : BatchItem) : String :=
  match it.title? with
  | some t => t
  | none => "Item " ++ natStr (i + 1)

/-- `item.get("description", "")`. -/
def itemDesc (it : BatchItem) : String :=
  match it.description? with
  | some d => d
  | none => ""

/-- The per-item result dict of `extract_batch`: the envelope of `extract`
with `title` and `description` attached. -/
structure EvalResult where
  title : String
  description : String
  metadata : Option ContentMetadata
  raw_response : Option String
  retries : Nat
  success : Bool
  error : Option String
deriving DecidableEq, Repr

/-- Attach an item's title and description to an envelope. -/
def withItem (env : Envelope) (title description : String) : EvalResult :=
  ⟨title, description, env.metadata, env.raw_response, env.retries, env.success, env.error⟩

/-- Model of `NetflixExtractor.extract_batch` over a per-description extract
function (the engine applied to the model-call collaborator): one result per
item, in input order, each item processed independently. -/
def extract_batch (ext : String → Envelope) (items : List BatchItem) : List EvalResult :=
  items.enum.map (fun p => withItem (ext (itemDesc p.2)) (itemTitle p.1 p.2) (itemDesc p.2))

/-! ## Evaluation scorers (src/src/evaluation.py) -/

/-- `schema_compliance_rate`: percentage of results that succeeded with no retry. -/
def schema_compliance_rate (results : List EvalResult) : ℚ :=
  if results.isEmpty then 0
  else (((results.filter (fun r => r.success && r.retries == 0)).length : ℚ) / (results.length : ℚ)) * 100

/-- `overall_success_rate`: percentage of results that succeeded. -/
def overall_success_rate (results : List EvalResult) : ℚ :=
  if results.isEmpty then 0
  else (((results.filter (fun r => r.success)).length : ℚ) / (results.length : ℚ)) * 100

/-- `retry_rate`: percentage of results that succeeded after at least one retry. -/
def retry_rate (results : List EvalResult) : ℚ :=
  if results.isEmpty then 0
  else (((results.filter (fun r => r.success && 0 < r.retries)).length : ℚ) / (results.length : ℚ)) * 100

/-- First dataframe row with the given title, returning its `Type` cell
(`df[df["Title"] == title]`, `row.iloc[0]["Type"]`). -/
def typeCell (df : List (String × String)) (t : String) : Option String :=
  (df.find? (fun row => row.1 == t)).map (fun row => row.2)

/-- The dataset label split into genres:
`[g.strip().lower() for g in row["Type"].lower().strip().split(",")]`. -/
def actualGenres (ty : String) : List String :=
  (pySplitComma (pyStrip (pyLower ty)).data).map (fun g => pyLower (pyStrip g))

/-- Case-folded set of a list of strings (`set(x.lower() for x in l)`). -/
def lowSet (l : List String) : Finset String := (l.map pyLower).toFinset

/-- `len(set(extracted) & set(actual)) > 0` for genre matching. -/
def genreHasMatch (md : ContentMetadata) (ty : String) : Bool :=
  decide (0 < ((md.genres.map pyLower).toFinset ∩ (actualGenres ty).toFinset).card)

/-- One result's contribution to `genre_accuracy`: `none` when skipped
(failed, or no dataframe row), otherwise the match flag. -/
def genreRow (df : List (String × String)) (r : EvalResult) : Option Bool :=
  if r.success then
    match r.metadata with
    | some md => (typeCell df r.title).map (fun ty => genreHasMatch md ty)
    | none => none
  else none

/-- The aggregate returned by `genre_accuracy` (detail rows omitted). -/
structure GenreAcc where
  accuracy : ℚ
  matchCount : Nat
  total : Nat
deriving DecidableEq, Repr

/-- Model of `genre_accuracy`: match counts over comparable rows and the
percentage (0.0 when no row was comparable). -/
def genre_accuracy (results : List EvalResult) (df : List (String × String)) : GenreAcc :=
  let flags := results.filterMap (genreRow df)
  let m := (flags.filter (fun b => b)).length
  let t := flags.length
  ⟨if 0 < t then ((m : ℚ) / (t : ℚ)) * 100 else 0, m, t⟩

/-- A ground-truth entry (data/ground_truth.py): title, description, expected
record. -/
structure Annot where
  title : String
  description : String
  expected : ContentMetadata
deriving DecidableEq, Repr

/-- Jaccard scoring as written in `manual_accuracy`: `1.0` when both sets are
empty, else `|A ∩ B| / |A ∪ B|`. -/
def jaccard (a b : Finset String) : ℚ :=
  if a = ∅ ∧ b = ∅ then 1 else ((a ∩ b).card : ℚ) / ((a ∪ b).card : ℚ)

/-- Exact case-insensitive match scoring. -/
def exactCI (x y : String) : ℚ := if pyLower x = pyLower y then 1 else 0

/-- The five per-item field scores of `manual_accuracy`. -/
structure FieldScores where
  genres : ℚ
  themes : ℚ
  mood : ℚ
  target_audience : ℚ
  content_warnings : ℚ
deriving DecidableEq, Repr

/-- One iteration of the `manual_accuracy` loop: find the first result with
the entry's title (`next(...)`), skip unless it succeeded, then score the
five fields. -/
def annotScores (results : List EvalResult) (a : Annot) : Option FieldScores :=
  match results.find? (fun r => r.title == a.title) with
  | none => none
  | some r =>
    if r.success then
      match r.metadata with
      | some md =>
        some ⟨jaccard (lowSet md.genres) (lowSet a.expected.genres),
              jaccard (lowSet md.themes) (lowSet a.expected.themes),
              exactCI md.mood a.expected.mood,
              exactCI md.target_audience a.expected.target_audience,
              jaccard (lowSet md.content_warnings) (lowSet a.expected.content_warnings)⟩
      | none => none
    else none

/-- The scored entries, in order. -/
def manualScores (results : List EvalResult) (anns : List Annot) : List FieldScores :=
  anns.filterMap (annotScores results)

/-- `sum(scores) / len(scores) * 100 if scores else 0.0`. -/
def avgPct (l : List ℚ) : ℚ := if l.isEmpty then 0 else (l.sum / (l.length : ℚ)) * 100

/-- The `average_scores` dict of `manual_accuracy`. -/
structure ManualAcc where
  genres : ℚ
  themes : ℚ
  mood : ℚ
  target_audience : ℚ
  content_warnings : ℚ
  overall : ℚ
deriving DecidableEq, Repr

/-- Model of `manual_accuracy`: per-field averages over the scored entries and
the overall score, `sum(avg_scores.values()) / 5`. -/
def manual_accuracy (results : List EvalResult) (anns : List Annot) : ManualAcc :=
  let ss := manualScores results anns
  let g := avgPct (ss.map FieldScores.genres)
  let t := avgPct (ss.map FieldScores.themes)
  let mo := avgPct (ss.map FieldScores.mood)
  let au := avgPct (ss.map FieldScores.target_audience)
  let cw := avgPct (ss.map FieldScores.content_warnings)
  ⟨g, t, mo, au, cw, (g + t + mo + au + cw) / 5⟩

/-! ## Definitions written from the specification's words

These are deliberately written from the claims (for refinement-style
comparison with the implementation models above), not from the source. -/

/-- Spec wording: Jaccard similarity of case-folded sets, with score 1 when
both sets are empty (equivalently: when their union is empty). -/
def specJaccard (a b : Finset String) : ℚ :=
  if a ∪ b = ∅ then 1 else ((a ∩ b).card : ℚ) / ((a ∪ b).card : ℚ)

/-- Amended-claim wording: an entry is comparable when the first result
carrying its title exists and succeeded. -/
def specComparable (results : List EvalResult) (a : Annot) : Bool :=
  match results.find? (fun r => r.title == a.title) with
  | some r => r.success
  | none => false

/-- The record of the first result with the entry's title (dummy record when
absent; only consulted under `specComparable` and the envelope invariant). -/
def specFound (results : List EvalResult) (a : Annot) : ContentMetadata :=
  match results.find? (fun r => r.title == a.title) with
  | some r => r.metadata.getD ⟨[], [], "", "", []⟩
  | none => ⟨[], [], "", "", []⟩

/-- Spec wording of the five per-field scores for one comparable entry. -/
def specScore (results : List EvalResult) (a : Annot) : FieldScores :=
  ⟨specJaccard (lowSet (specFound results a).genres) (lowSet a.expected.genres),
   specJaccard (lowSet (specFound results a).themes) (lowSet a.expected.themes),
   exactCI (specFound results a).mood a.expected.mood,
   exactCI (specFound results a).target_audience a.expected.target_audience,
   specJaccard (lowSet (specFound results a).content_warnings) (lowSet a.expected.content_warnings)⟩

/-- Arithmetic mean of a list of scores (0 on the empty list). -/
def specMean (l : List ℚ) : ℚ := if l = [] then 0 else l.sum / (l.length : ℚ)

/-- Spec wording: a genre-accuracy row is comparable when the result succeeded
and its title matches a dataset row. -/
def specRowComparable (df : List (String × String)) (r : EvalResult) : Bool :=
  r.success && (typeCell df r.title).isSome

/-- Spec wording: the case-folded extracted genres intersect the case-folded
comma-split label field. -/
def specRowMatch (df : List (String × String)) (r : EvalResult) : Bool :=
  match r.metadata, typeCell df r.title with
  | some md, some ty =>
    decide (((md.genres.map pyLower).toFinset ∩ (actualGenres ty).toFinset).Nonempty)
  | _, _ => false

/-- The envelope invariant `extract` maintains: a successful result carries a
record. -/
def MetadataPresent (results : List EvalResult) : Prop :=
  ∀ r ∈ results, r.success = true → r.metadata.isSome

/-! ## Helpers used in claim statements, and concrete inputs -/

/-- `hasSeq pat s`: `pat` occurs as a contiguous subsequence of `s`. -/
def hasSeq (pat : List Char) : List Char → Bool
  | [] => pat.isEmpty
  | c :: cs => matchesAt pat (c :: cs) || hasSeq pat cs

/-- A string consisting of whitespace only. -/
def wsOnly (s : String) : Prop := ∀ c ∈ s.data, pyWs c = true

/-- The closing (and untagged opening) fence marker, ```` ``` ````. -/
def fenceStr : String := ⟨fencePat⟩

/-- The tagged opening fence marker, ```` ```json ````. -/
def fenceJsonStr : String := ⟨fenceJsonPat⟩

/-- The four required field names, in declaration order. -/
def reqKeys : List String := [genresKey, themesKey, moodKey, audienceKey]

/-- Whether a required field is a `str` field (else it is a `list[str]` field). -/
def reqWantsStr (name : String) : Bool := name == moodKey || name == audienceKey

/-- A required field is missing from the mapping or has the wrong shape. -/
def reqFieldBad (kvs : List (String × Json)) (name : String) : Bool :=
  match objGet kvs name with
  | none => true
  | some v => if reqWantsStr name then !(asStr v).isSome else !(asStrList v).isSome

/-- A metadata record used in concrete scenarios. -/
def okMd : ContentMetadata := ⟨["a"], ["b"], "c", "d", []⟩

/-- Response text that parses and validates to `okMd`. -/
def okJson : String :=
  "\x7b\"genres\": [\"a\"], \"themes\": [\"b\"], \"mood\": \"c\", \"target_audience\": \"d\"\x7d"

/-- A mapping with all four required fields well-typed but a wrongly typed
`content_warnings`. -/
def cwBadKvs : List (String × Json) :=
  [(genresKey, .arr []), (themesKey, .arr []), (moodKey, .str "a"),
   (audienceKey, .str "b"), (warningsKey, .num 5)]

/-- The truncated fragment named by the specification. -/
def truncatedFrag : String := "\x7b\"genres\": [\"Drama\""

/-- A batch with two results under the same title: the first failed, the
second succeeded. -/
def dupResults : List EvalResult :=
  [⟨"T", "", none, none, 2, false, some "boom"⟩,
   ⟨"T", "", some okMd, some okJson, 0, true, none⟩]

/-- A ground-truth list whose single entry carries that duplicated title and
expects exactly `okMd`. -/
def dupAnns : List Annot := [⟨"T", "", okMd⟩]

/-- A JSON value whose rendered text contains a fence marker inside a string
value. -/
def cex5Val : Json := .obj [("mood", .str fenceStr)]

/-- `cex5Val` rendered and wrapped in fence markers with newlines. -/
def cex5Wrapped : String := fenceStr ++ "\n" ++ cex5Val.dumps ++ "\n" ++ fenceStr

/-- Whether an `Except` value is a success. -/
def isOkE {ε α : Type} : Except ε α → Bool
  | .ok _ => true
  | .error _ => false

/-- A successful result carrying a given title. -/
def succTitled (t : String) (r : EvalResult) : Bool := r.title == t && r.success

/-! # Theorems -/

/-! ## Generic helper lemmas -/

theorem dropWhile_len_le (p : Char → Bool) : ∀ l : List Char, (l.dropWhile p).length ≤ l.length := by
  intro l
  induction l with
  | nil => simp
  | cons c cs ih =>
    by_cases h : p c
    · simp [List.dropWhile, h]
      omega
    · simp [List.dropWhile, h]

theorem isCaught_iff (a : AttemptOut) : a.isCaught = true ↔ ∃ m, a = .caught m := by
  cases a <;> simp [AttemptOut.isCaught]

theorem isUncaught_iff (a : AttemptOut) : a.isUncaught = true ↔ ∃ m, a = .uncaught m := by
  cases a <;> simp [AttemptOut.isUncaught]

theorem asStrs_map (l : List String) : asStrs (l.map Json.str) = some l := by
  induction l with
  | nil => rfl
  | cons s rest ih => simp [asStrs, ih]

/-- C10: On an empty results list, `schema_compliance_rate`,
`overall_success_rate` and `retry_rate` each return 0.0; `genre_accuracy`
with zero comparable rows reports accuracy 0.0; `manual_accuracy` on an empty
batch returns all-zero scores.  No metric divides by zero: the scorers are
total on empty or non-comparable batches. -/
theorem scorers_total_on_empty :
    schema_compliance_rate [] = 0 ∧ overall_success_rate [] = 0 ∧ retry_rate [] = 0 ∧
    (∀ (results : List EvalResult) (df : List (String × String)),
      (genre_accuracy results df).total = 0 → (genre_accuracy results df).accuracy = 0) ∧
    manual_accuracy [] [] = ⟨0, 0, 0, 0, 0, 0⟩ := by
  refine ⟨rfl, rfl, rfl, ?_, ?_⟩
  · intro results df h
    simp only [genre_accuracy] at h ⊢
    simp [h]
  · simp [manual_accuracy, manualScores, avgPct]

/-- Witness for the hypothesis-bearing part of `scorers_total_on_empty`. -/
theorem scorers_total_on_empty_witness :
    (genre_accuracy [] []).total = 0 ∧ (genre_accuracy [] []).accuracy = 0 :=
  ⟨rfl, scorers_total_on_empty.2.2.2.1 [] [] rfl⟩

/-- C9: `extract_batch` produces exactly one result per input item, in input
order, each carrying that item's title and description (with the code's
defaults when a key is absent); each item's result is a function of that item
alone, so one item's failure cannot abort the batch or change later
results. -/
theorem extract_batch_pointwise (ext : String → Envelope) (items : List BatchItem) :
    (extract_batch ext items).length = items.length ∧
    (∀ i : Nat, (extract_batch ext items)[i]? =
      (items[i]?).map (fun it => withItem (ext (itemDesc it)) (itemTitle i it) (itemDesc it))) ∧
    (∀ (i : Nat) (t d : String), items[i]? = some ⟨some t, some d⟩ →
      (extract_batch ext items)[i]? = some (withItem (ext d) t d)) := by
  have hpt : ∀ i : Nat, (extract_batch ext items)[i]? =
      (items[i]?).map (fun it => withItem (ext (itemDesc it)) (itemTitle i it) (itemDesc it)) := by
    intro i
    simp [extract_batch, List.getElem?_map, List.getElem?_enum, Option.map_map]
    rfl
  refine ⟨by simp [extract_batch, List.enum_length], hpt, ?_⟩
  intro i t d h
  rw [hpt i, h]
  rfl

/-- Witness for `extract_batch_pointwise`. -/
theorem extract_batch_pointwise_witness :
    (extract_batch (fun _ => ⟨none, none, 2, false, some "e"⟩) [⟨some "t", some "d"⟩])[0]? =
      some (withItem ⟨none, none, 2, false, some "e"⟩ "t" "d") :=
  (extract_batch_pointwise (fun _ => ⟨none, none, 2, false, some "e"⟩)
    [⟨some "t", some "d"⟩]).2.2 0 "t" "d" rfl

/-- C3 counterexample: this mapping contains the four required fields with
correct types, yet validation fails, because its `content_warnings` value is
a number.  The claim, as stated, predicts success on every such mapping. -/
theorem validator_counterexample :
    validate cwBadKvs = Except.error [VErr.wrongType warningsKey] := rfl

/-- C3 (amended): for every mapping with the four required fields well typed
and whose `content_warnings`, if present, is a sequence of strings, the
validator succeeds with a record whose fields equal the input values;
`content_warnings` defaults to the empty sequence when omitted. -/
theorem validator_accepts_well_typed
    (kvs : List (String × Json)) (gs ts : List String) (mo au : String)
    (hg : objGet kvs genresKey = some (Json.arr (gs.map Json.str)))
    (ht : objGet kvs themesKey = some (Json.arr (ts.map Json.str)))
    (hm : objGet kvs moodKey = some (Json.str mo))
    (ha : objGet kvs audienceKey = some (Json.str au)) :
    (objGet kvs warningsKey = none → validate kvs = .ok ⟨gs, ts, mo, au, []⟩) ∧
    (∀ ws : List String, objGet kvs warningsKey = some (Json.arr (ws.map Json.str)) →
      validate kvs = .ok ⟨gs, ts, mo, au, ws⟩) := by
  have hg2 : reqStrList kvs genresKey = .ok gs := by
    simp [reqStrList, hg, asStrList, asStrs_map]
  have ht2 : reqStrList kvs themesKey = .ok ts := by
    simp [reqStrList, ht, asStrList, asStrs_map]
  have hm2 : reqStr kvs moodKey = .ok mo := by
    simp [reqStr, hm, asStr]
  have ha2 : reqStr kvs audienceKey = .ok au := by
    simp [reqStr, ha, asStr]
  constructor
  · intro hw
    have hw2 : optStrList kvs warningsKey = .ok [] := by simp [optStrList, hw]
    simp [validate, hg2, ht2, hm2, ha2, hw2]
  · intro ws hw
    have hw2 : optStrList kvs warningsKey = .ok ws := by
      simp [optStrList, hw, asStrList, asStrs_map]
    simp [validate, hg2, ht2, hm2, ha2, hw2]

/-- Witness for `validator_accepts_well_typed`. -/
theorem validator_accepts_well_typed_witness :
    validate [(genresKey, Json.arr [Json.str "Drama"]), (themesKey, Json.arr []),
              (moodKey, Json.str "dark"), (audienceKey, Json.str "adults")] =
      .ok ⟨["Drama"], [], "dark", "adults", []⟩ :=
  (validator_accepts_well_typed
    [(genresKey, Json.arr [Json.str "Drama"]), (themesKey, Json.arr []),
     (moodKey, Json.str "dark"), (audienceKey, Json.str "adults")]
    ["Drama"] [] "dark" "adults" rfl rfl rfl rfl).1 rfl

/-- Any single failing check makes `validate` report the collected error
list. -/
theorem validate_error_of_check
    (kvs : List (String × Json)) (e : VErr)
    (h : reqStrList kvs genresKey = .error e ∨ reqStrList kvs themesKey = .error e ∨
         reqStr kvs moodKey = .error e ∨ reqStr kvs audienceKey = .error e ∨
         optStrList kvs warningsKey = .error e) :
    validate kvs = .error (vErrs kvs) ∧ e ∈ vErrs kvs := by
  constructor
  · unfold validate
    split
    · rename_i g t mo au cw hmatch
      rcases h with h | h | h | h | h <;> simp_all
    · rfl
  · rcases h with h | h | h | h | h <;> simp [vErrs, errOf, h]

/-- C4: a mapping missing any of the four required fields, or carrying one
with the wrong shape, is rejected with a validation error naming that field,
and no record is produced. -/
theorem validator_rejects_bad_required
    (kvs : List (String × Json)) (name : String)
    (hmem : name ∈ reqKeys) (hbad : reqFieldBad kvs name = true) :
    ∃ errs, validate kvs = .error errs ∧ name ∈ errs.map VErr.fieldName := by
  have main : ∃ e : VErr, e.fieldName = name ∧
      (reqStrList kvs genresKey = .error e ∨ reqStrList kvs themesKey = .error e ∨
       reqStr kvs moodKey = .error e ∨ reqStr kvs audienceKey = .error e ∨
       optStrList kvs warningsKey = .error e) := by
    simp only [reqKeys, List.mem_cons, List.mem_singleton] at hmem
    rcases hmem with rfl | rfl | rfl | rfl | h
    · unfold reqFieldBad at hbad
      cases hg : objGet kvs genresKey with
      | none => exact ⟨.missing genresKey, rfl, Or.inl (by simp [reqStrList, hg])⟩
      | some v =>
        rw [hg] at hbad
        simp only [show reqWantsStr genresKey = false from rfl, if_neg] at hbad
        cases hv : asStrList v with
        | none => exact ⟨.wrongType genresKey, rfl, Or.inl (by simp [reqStrList, hg, hv])⟩
        | some l => simp [hv] at hbad
    · unfold reqFieldBad at hbad
      cases hg : objGet kvs themesKey with
      | none => exact ⟨.missing themesKey, rfl, Or.inr (Or.inl (by simp [reqStrList, hg]))⟩
      | some v =>
        rw [hg] at hbad
        simp only [show reqWantsStr themesKey = false from rfl, if_neg] at hbad
        cases hv : asStrList v with
        | none => exact ⟨.wrongType themesKey, rfl, Or.inr (Or.inl (by simp [reqStrList, hg, hv]))⟩
        | some l => simp [hv] at hbad
    · unfold reqFieldBad at hbad
      cases hg : objGet kvs moodKey with
      | none => exact ⟨.missing moodKey, rfl, Or.inr (Or.inr (Or.inl (by simp [reqStr, hg])))⟩
      | some v =>
        rw [hg] at hbad
        simp only [show reqWantsStr moodKey = true from rfl, if_pos] at hbad
        cases hv : asStr v with
        | none => exact ⟨.wrongType moodKey, rfl, Or.inr (Or.inr (Or.inl (by simp [reqStr, hg, hv])))⟩
        | some s => simp [hv] at hbad
    · unfold reqFieldBad at hbad
      cases hg : objGet kvs audienceKey with
      | none =>
        exact ⟨.missing audienceKey, rfl, Or.inr (Or.inr (Or.inr (Or.inl (by simp [reqStr, hg]))))⟩
      | some v =>
        rw [hg] at hbad
        simp only [show reqWantsStr audienceKey = true from rfl, if_pos] at hbad
        cases hv : asStr v with
        | none =>
          exact ⟨.wrongType audienceKey, rfl,
            Or.inr (Or.inr (Or.inr (Or.inl (by simp [reqStr, hg, hv]))))⟩
        | some s => simp [hv] at hbad
    · simp at h
  obtain ⟨e, he, hor⟩ := main
  obtain ⟨hval, hin⟩ := validate_error_of_check kvs e hor
  exact ⟨vErrs kvs, hval, List.mem_map.mpr ⟨e, hin, he⟩⟩

/-- Witness for `validator_rejects_bad_required`. -/
theorem validator_rejects_bad_required_witness :
    themesKey ∈ reqKeys ∧ reqFieldBad [(genresKey, Json.arr [])] themesKey = true ∧
    ∃ errs, validate [(genresKey, Json.arr [])] = .error errs ∧
      themesKey ∈ errs.map VErr.fieldName :=
  ⟨by decide, rfl, validator_rejects_bad_required [(genresKey, Json.arr [])] themesKey
    (by decide) rfl⟩

/-- The three-attempt loop of `extract`, written out: each attempt either
succeeds, re-raises an uncaught exception, or retries; exhaustion returns the
failure envelope with the last error and last raw text. -/
theorem extractE_cases (c : Nat → Except String String) :
    extractE c =
      match c 0 with
      | .error s => .error s
      | .ok raw0 =>
        match runAttempt raw0 with
        | .ok md => .ok ⟨some md, some raw0, 0, true, none⟩
        | .uncaught m => .error m
        | .caught _ =>
          match c 1 with
          | .error s => .error s
          | .ok raw1 =>
            match runAttempt raw1 with
            | .ok md => .ok ⟨some md, some raw1, 1, true, none⟩
            | .uncaught m => .error m
            | .caught _ =>
              match c 2 with
              | .error s => .error s
              | .ok raw2 =>
                match runAttempt raw2 with
                | .ok md => .ok ⟨some md, some raw2, 2, true, none⟩
                | .uncaught m => .error m
                | .caught m2 => .ok ⟨none, some raw2, 2, false, some m2⟩ := by
  show extractGo c 3 0 none none = _
  rcases h0 : c 0 with s0 | raw0
  · simp [extractGo, h0]
  · rcases a0 : runAttempt raw0 with md | m0 | m0 <;> simp [extractGo, h0, a0]
    rcases h1 : c 1 with s1 | raw1
    · simp [extractGo, h1]
    · rcases a1 : runAttempt raw1 with md | m1 | m1 <;> simp [extractGo, h1, a1]
      rcases h2 : c 2 with s2 | raw2
      · simp [extractGo, h2]
      · rcases a2 : runAttempt raw2 with md | m2 | m2 <;>
          simp [extractGo, h2, a2, maxRetries]

/-- The same, for a collaborator that always returns text. -/
theorem extractT_cases (call : Nat → String) :
    extractT call =
      match runAttempt (call 0) with
      | .ok md => .ok ⟨some md, some (call 0), 0, true, none⟩
      | .uncaught m => .error m
      | .caught _ =>
        match runAttempt (call 1) with
        | .ok md => .ok ⟨some md, some (call 1), 1, true, none⟩
        | .uncaught m => .error m
        | .caught _ =>
          match runAttempt (call 2) with
          | .ok md => .ok ⟨some md, some (call 2), 2, true, none⟩
          | .uncaught m => .error m
          | .caught m2 => .ok ⟨none, some (call 2), 2, false, some m2⟩ := by
  rw [extractT, extractE_cases]

/-- C2 counterexample: `extract` does raise to its caller.  A collaborator
whose call itself fails propagates the service error, and a collaborator
returning text whose JSON is not a mapping hits an uncaught `TypeError` in
`ContentMetadata(**data)`. -/
theorem extract_raises_counterexample :
    extractE (fun _ => .error "connection error") = .error "connection error" ∧
    extractE (fun _ => .ok "[]") = .error typeErrorMsg := ⟨rfl, rfl⟩

/-- C2 (amended): for every collaborator that returns text on each attempt and
never returns text whose parsed JSON is a non-mapping (the uncaught
`TypeError` case), `extract` returns an envelope rather than raising: every
parse or validation failure is captured inside it, a successful envelope
carries a record, and a failed envelope carries an error message, so callers
need only inspect `success`.  Service errors from the call itself still
propagate — the open gap the spec records. -/
theorem extract_envelope_on_text (call : Nat → String)
    (h : ∀ k, k ≤ maxRetries → (runAttempt (call k)).isUncaught = false) :
    ∃ env, extractT call = .ok env ∧
      (env.success = true → env.metadata.isSome = true) ∧
      (env.success = false → env.error.isSome = true) := by
  have h0 := h 0 (by simp [maxRetries])
  have h1 := h 1 (by simp [maxRetries])
  have h2 := h 2 (by simp [maxRetries])
  rw [extractT_cases]
  rcases a0 : runAttempt (call 0) with md | m0 | m0
  · exact ⟨_, rfl, by simp, by simp⟩
  · rcases a1 : runAttempt (call 1) with md | m1 | m1
    · exact ⟨_, rfl, by simp, by simp⟩
    · rcases a2 : runAttempt (call 2) with md | m2 | m2
      · exact ⟨_, rfl, by simp, by simp⟩
      · exact ⟨_, rfl, by simp, by simp⟩
      · rw [a2] at h2; simp [AttemptOut.isUncaught] at h2
    · rw [a1] at h1; simp [AttemptOut.isUncaught] at h1
  · rw [a0] at h0; simp [AttemptOut.isUncaught] at h0

/-- Witness for `extract_envelope_on_text`. -/
theorem extract_envelope_on_text_witness :
    isOkE (extractT (fun _ => "not json")) = true := by
  obtain ⟨env, he, -, -⟩ := extract_envelope_on_text (fun _ => "not json") (fun k hk => by
    match k, hk with
    | 0, _ => rfl
    | 1, _ => rfl
    | 2, _ => rfl)
  rw [he]
  rfl

/-- An unparsable response makes one attempt fail with the caught
`ValueError` whose message is `parseMsg`. -/
theorem unparsable_runAttempt (raw : String) (h : unparsable raw) :
    runAttempt raw = .caught (parseMsg raw) := by
  unfold unparsable at h
  unfold runAttempt parse_response
  simp [h, parseMsg]

/-- The parse-failure message is never empty. -/
theorem invalidJsonMsg_ne (d c : String) : invalidJsonMsg d c ≠ "" := by
  intro h
  have h2 := congrArg String.data h
  simp [invalidJsonMsg, String.data_append] at h2

/-- C1: retry semantics of `extract` over any model-call collaborator that
returns text: (1) a caught failure on attempt 0 followed by a response that
parses and validates on attempt 1 yields a success envelope with
`retries = 1` and that attempt's raw text; (2) when every attempt's response
is unparsable, the result is a failure envelope with `retries = maxRetries`,
`error` equal to the last captured error's (non-empty) message and
`raw_response` the last raw text; (3) in general, success at attempt `k`
yields `retries = k`; (4) `extract` consults at most `1 + maxRetries`
attempts of the collaborator. -/
theorem extract_retry_semantics :
    (∀ (call : Nat → String) (md : ContentMetadata),
      (runAttempt (call 0)).isCaught = true → runAttempt (call 1) = .ok md →
      extractT call = .ok ⟨some md, some (call 1), 1, true, none⟩) ∧
    (∀ call : Nat → String, (∀ k, k ≤ maxRetries → unparsable (call k)) →
      extractT call =
        .ok ⟨none, some (call maxRetries), maxRetries, false, some (parseMsg (call maxRetries))⟩ ∧
      parseMsg (call maxRetries) ≠ "") ∧
    (∀ (call : Nat → String) (k : Nat) (md : ContentMetadata), k ≤ maxRetries →
      (∀ i, i < k → (runAttempt (call i)).isCaught = true) → runAttempt (call k) = .ok md →
      ∃ env, extractT call = .ok env ∧ env.success = true ∧ env.retries = k) ∧
    (∀ c c2 : Nat → Except String String, (∀ i, i < 1 + maxRetries → c i = c2 i) →
      extractE c = extractE c2) := by
  refine ⟨?_, ?_, ?_, ?_⟩
  · intro call md h0 h1
    obtain ⟨m0, hm0⟩ := (isCaught_iff _).mp h0
    rw [extractT_cases, hm0, h1]
  · intro call hall
    have c0 := unparsable_runAttempt _ (hall 0 (by simp [maxRetries]))
    have c1 := unparsable_runAttempt _ (hall 1 (by simp [maxRetries]))
    have c2 := unparsable_runAttempt _ (hall 2 (by simp [maxRetries]))
    refine ⟨?_, invalidJsonMsg_ne _ _⟩
    rw [extractT_cases, c0, c1, c2]
    rfl
  · intro call k md hk hprev hok
    simp only [maxRetries] at hk
    interval_cases k
    · rw [extractT_cases, hok]
      exact ⟨_, rfl, rfl, rfl⟩
    · obtain ⟨m0, hm0⟩ := (isCaught_iff _).mp (hprev 0 (by omega))
      rw [extractT_cases, hm0, hok]
      exact ⟨_, rfl, rfl, rfl⟩
    · obtain ⟨m0, hm0⟩ := (isCaught_iff _).mp (hprev 0 (by omega))
      obtain ⟨m1, hm1⟩ := (isCaught_iff _).mp (hprev 1 (by omega))
      rw [extractT_cases, hm0, hm1, hok]
      exact ⟨_, rfl, rfl, rfl⟩
  · intro c c2 h
    rw [extractE_cases, extractE_cases, h 0 (by simp [maxRetries]),
        h 1 (by simp [maxRetries]), h 2 (by simp [maxRetries])]

/-- Witness for `extract_retry_semantics`: a concrete collaborator failing on
attempt 0 and valid on attempt 1, and a concrete always-unparsable one. -/
theorem extract_retry_semantics_witness :
    extractT (fun k => if k = 0 then "oops" else okJson) =
      .ok ⟨some okMd, some okJson, 1, true, none⟩ ∧
    extractT (fun _ => "oops") = .ok ⟨none, some "oops", 2, false, some (parseMsg "oops")⟩ ∧
    parseMsg "oops" ≠ "" ∧
    extractE (fun k => if k ≤ 2 then .ok "oops" else .error "late") =
      extractE (fun _ => .ok "oops") := by
  obtain ⟨p1, p2, p3, p4⟩ := extract_retry_semantics
  have h2 := p2 (fun _ => "oops") (fun k hk => by
    unfold unparsable
    rfl)
  refine ⟨p1 (fun k => if k = 0 then "oops" else okJson) okMd rfl rfl, h2.1, h2.2, ?_⟩
  exact p4 _ _ (fun i hi => by
    match i, hi with
    | 0, _ => rfl
    | 1, _ => rfl
    | 2, _ => rfl)

/-- C6: any input text whose cleaned form is not syntactically valid
structured data makes the Response Parser fail with the `ValueError` whose
message carries the decoder's syntax-error detail and the cleaned text —
including the truncated fragment named by the spec, whose cleaned form is
itself and fails to parse. -/
theorem parse_response_failure :
    (∀ t : String, loads (clean_json_response t) = none →
      parse_response t =
        .error (invalidJsonMsg (decodeDetail (clean_json_response t)) (clean_json_response t))) ∧
    clean_json_response truncatedFrag = truncatedFrag ∧
    loads truncatedFrag = none := by
  refine ⟨?_, rfl, rfl⟩
  intro t h
  unfold parse_response
  simp [h]

/-- Witness for `parse_response_failure`, at the spec's truncated fragment. -/
theorem parse_response_failure_witness :
    parse_response truncatedFrag =
      .error (invalidJsonMsg (decodeDetail (clean_json_response truncatedFrag))
        (clean_json_response truncatedFrag)) :=
  parse_response_failure.1 truncatedFrag rfl

/-- A result whose title has no dataset row contributes nothing to
`genre_accuracy`. -/
theorem genreRow_none_of_noRow (df : List (String × String)) (r : EvalResult)
    (h : typeCell df r.title = none) : genreRow df r = none := by
  unfold genreRow
  cases hs : r.success
  · simp
  · cases r.metadata <;> simp [h]

/-- Under the envelope invariant, the flag list of `genre_accuracy` is the
comparable results in order, each mapped to the spec's match predicate. -/
theorem genreFlags_eq (df : List (String × String)) :
    ∀ results : List EvalResult, MetadataPresent results →
      results.filterMap (genreRow df) =
        (results.filter (specRowComparable df)).map (specRowMatch df) := by
  intro results h
  induction results with
  | nil => rfl
  | cons r rest ih =>
    have hrest : MetadataPresent rest := fun x hx hs => h x (by simp [hx]) hs
    have ihr := ih hrest
    cases hs : r.success with
    | false =>
      simp [List.filterMap_cons, List.filter_cons, genreRow, specRowComparable, hs, ihr]
    | true =>
      have hmd := h r (by simp) hs
      cases hm : r.metadata with
      | none => rw [hm] at hmd; simp at hmd
      | some md =>
        cases hty : typeCell df r.title with
        | none =>
          simp [List.filterMap_cons, List.filter_cons, genreRow, specRowComparable,
            hs, hm, hty, ihr]
        | some ty =>
          simp [List.filterMap_cons, List.filter_cons, genreRow, specRowComparable,
            specRowMatch, genreHasMatch, hs, hm, hty, ihr, Finset.card_pos]

/-- C8 (amended): `genre_accuracy` counts a successful result with a matching
dataset row as a match exactly when the case-folded extracted genres intersect
the case-folded comma-split label field; the reported accuracy is matches over
comparable rows times 100 (a percentage); and a result without a dataset row
is excluded from the denominator rather than counted as a failure. The
original claim's unscaled quotient (matches divided by comparable rows) is
refuted by genre_accuracy_scale_counterexample: one match among two comparable
rows reports 50, not 1/2. -/
theorem genre_accuracy_characterization
    (results : List EvalResult) (df : List (String × String))
    (h : MetadataPresent results) :
    (genre_accuracy results df).total = (results.filter (specRowComparable df)).length ∧
    (genre_accuracy results df).matchCount =
      (results.filter (fun r => specRowComparable df r && specRowMatch df r)).length ∧
    (genre_accuracy results df).accuracy =
      (if 0 < (results.filter (specRowComparable df)).length
       then ((results.filter (fun r => specRowComparable df r && specRowMatch df r)).length : ℚ) /
            ((results.filter (specRowComparable df)).length : ℚ) * 100
       else 0) ∧
    (∀ r : EvalResult, typeCell df r.title = none →
      genre_accuracy (results ++ [r]) df = genre_accuracy results df) := by
  have hflags := genreFlags_eq df results h
  have hmc :
      (((results.filter (specRowComparable df)).map (specRowMatch df)).filter (fun b => b)).length =
        (results.filter (fun r => specRowComparable df r && specRowMatch df r)).length := by
    rw [List.filter_map, List.length_map, List.filter_filter]
    apply congrArg List.length
    apply List.filter_congr
    intro a ha
    simp [Function.comp, Bool.and_comm]
  refine ⟨?_, ?_, ?_, ?_⟩
  · simp only [genre_accuracy, hflags, List.length_map]
  · simp only [genre_accuracy, hflags, hmc]
  · simp only [genre_accuracy, hflags, hmc, List.length_map]
  · intro r hty
    unfold genre_accuracy
    rw [List.filterMap_append]
    simp [genreRow_none_of_noRow df r hty]

/-- Witness for `genre_accuracy_characterization`. -/
theorem genre_accuracy_characterization_witness :
    (genre_accuracy [⟨"T", "", some okMd, some okJson, 0, true, none⟩] [("T", "a, x")]).total =
      ([⟨"T", "", some okMd, some okJson, 0, true, none⟩].filter
        (specRowComparable [("T", "a, x")])).length :=
  (genre_accuracy_characterization [⟨"T", "", some okMd, some okJson, 0, true, none⟩]
    [("T", "a, x")] (fun r hr hs => by fin_cases hr; rfl)).1

/-- The code's Jaccard branch condition agrees with the spec wording. -/
theorem jaccard_eq_specJaccard (a b : Finset String) : jaccard a b = specJaccard a b := by
  simp [jaccard, specJaccard, Finset.union_eq_empty]

/-- Jaccard score of a nonempty set against itself is 1. -/
theorem jaccard_same (a : Finset String) (h : a ≠ ∅) : jaccard a a = 1 := by
  have hc : (a.card : ℚ) ≠ 0 := by
    simpa [Finset.card_eq_zero] using h
  simp [jaccard, h, Finset.inter_self, Finset.union_self, div_self hc]

/-- Jaccard score of two empty sets is 1. -/
theorem jaccard_empty : jaccard ∅ ∅ = 1 := by simp [jaccard]

/-- Case-insensitive match of a string with itself is 1. -/
theorem exactCI_same (x : String) : exactCI x x = 1 := by simp [exactCI]

/-- The percentage average is 100 times the mean. -/
theorem avgPct_eq_mean (l : List ℚ) : avgPct l = 100 * specMean l := by
  by_cases h : l = []
  · simp [avgPct, specMean, h]
  · simp [avgPct, specMean, h, List.isEmpty_iff]
    ring

/-- C7 counterexample: with two results under the same title — a failure
first, then a success whose record equals the expected record exactly — the
entry has a matching successful result (so the claim calls it comparable and
predicts a genres field average of 1.0), yet `manual_accuracy` skips it
because the *first* title match failed, and its genres average is 0; keeping
only the successful result yields 100. -/
theorem manual_accuracy_counterexample :
    (dupResults.filter (succTitled "T")).length = 1 ∧
    (manual_accuracy dupResults dupAnns).genres = 0 ∧
    (manual_accuracy [⟨"T", "", some okMd, some okJson, 0, true, none⟩] dupAnns).genres = 100 := by
  refine ⟨rfl, rfl, ?_⟩
  have ha : annotScores [⟨"T", "", some okMd, some okJson, 0, true, none⟩] ⟨"T", "", okMd⟩ =
      some ⟨jaccard (lowSet ["a"]) (lowSet ["a"]), jaccard (lowSet ["b"]) (lowSet ["b"]),
            exactCI "c" "c", exactCI "d" "d", jaccard (lowSet []) (lowSet [])⟩ := rfl
  have hs : manualScores [⟨"T", "", some okMd, some okJson, 0, true, none⟩] dupAnns =
      [⟨1, 1, 1, 1, 1⟩] := by
    unfold manualScores dupAnns
    rw [List.filterMap_cons, ha]
    rw [jaccard_same _ (by decide), jaccard_same _ (by decide), exactCI_same, exactCI_same]
    norm_num [lowSet, jaccard_empty]
  simp [manual_accuracy, hs, avgPct]

/-- Under the envelope invariant, the scored list of `manual_accuracy` is the
comparable entries in order, scored as the spec words it. -/
theorem manualScores_eq (results : List EvalResult) (h : MetadataPresent results) :
    ∀ anns : List Annot,
      manualScores results anns =
        (anns.filter (specComparable results)).map (specScore results) := by
  intro anns
  induction anns with
  | nil => rfl
  | cons a rest ih =>
    unfold manualScores at ih ⊢
    rw [List.filterMap_cons, List.filter_cons, ih]
    cases hf : results.find? (fun r => r.title == a.title) with
    | none => simp [annotScores, specComparable, hf]
    | some r =>
      cases hs : r.success with
      | false => simp [annotScores, specComparable, hf, hs]
      | true =>
        have hmd := h r (List.mem_of_find?_eq_some hf) hs
        cases hm : r.metadata with
        | none => rw [hm] at hmd; simp at hmd
        | some md =>
          simp only [annotScores, specComparable, hf, hs, hm, if_true, Option.toList]
          simp [specScore, specFound, hf, hm, jaccard_eq_specJaccard]

/-- C7 (amended): `manual_accuracy` scores each comparable entry — one whose
*first* title-matching result exists and succeeded — per field: Jaccard
similarity of case-folded sets for `genres`, `themes`, `content_warnings`
(1.0 when both sets are empty), exact case-insensitive match for `mood` and
`target_audience`; each reported field average is 100 times the mean of that
field's scores over the comparable entries; and the overall score is the
unweighted mean of the five field averages, not an item-weighted mean. -/
theorem manual_accuracy_characterization
    (results : List EvalResult) (anns : List Annot) (h : MetadataPresent results) :
    manualScores results anns = (anns.filter (specComparable results)).map (specScore results) ∧
    (manual_accuracy results anns).genres =
      100 * specMean ((anns.filter (specComparable results)).map
        (fun a => (specScore results a).genres)) ∧
    (manual_accuracy results anns).themes =
      100 * specMean ((anns.filter (specComparable results)).map
        (fun a => (specScore results a).themes)) ∧
    (manual_accuracy results anns).mood =
      100 * specMean ((anns.filter (specComparable results)).map
        (fun a => (specScore results a).mood)) ∧
    (manual_accuracy results anns).target_audience =
      100 * specMean ((anns.filter (specComparable results)).map
        (fun a => (specScore results a).target_audience)) ∧
    (manual_accuracy results anns).content_warnings =
      100 * specMean ((anns.filter (specComparable results)).map
        (fun a => (specScore results a).content_warnings)) ∧
    (manual_accuracy results anns).overall =
      ((manual_accuracy results anns).genres + (manual_accuracy results anns).themes +
       (manual_accuracy results anns).mood + (manual_accuracy results anns).target_audience +
       (manual_accuracy results anns).content_warnings) / 5 := by
  have hs := manualScores_eq results h anns
  refine ⟨hs, ?_, ?_, ?_, ?_, ?_, rfl⟩ <;>
    (simp [manual_accuracy, hs, avgPct_eq_mean, List.map_map]; try rfl)

/-- Witness for `manual_accuracy_characterization`. -/
theorem manual_accuracy_characterization_witness :
    manualScores dupResults dupAnns =
      (dupAnns.filter (specComparable dupResults)).map (specScore dupResults) :=
  (manual_accuracy_characterization dupResults dupAnns (fun r hr hs => by
    fin_cases hr
    · simp [dupResults] at hs
    · rfl)).1

/-! ## Induction principle for `Json` -/

theorem jsize_pos : ∀ v : Json, 0 < jsize v := by
  intro v
  cases v <;> simp [jsize]

theorem jsize_le_jsizeList {x : Json} : ∀ {xs : List Json}, x ∈ xs → jsize x ≤ jsizeList xs := by
  intro xs h
  induction xs with
  | nil => simp at h
  | cons y ys ih =>
    rcases List.mem_cons.mp h with rfl | h2
    · simp [jsizeList]
      omega
    · have := ih h2
      simp [jsizeList]
      omega

theorem jsize_le_jsizeFields {kv : String × Json} :
    ∀ {kvs : List (String × Json)}, kv ∈ kvs → jsize kv.2 ≤ jsizeFields kvs := by
  intro kvs h
  induction kvs with
  | nil => simp at h
  | cons p ps ih =>
    rcases List.mem_cons.mp h with rfl | h2
    · simp [jsizeFields]
      omega
    · have := ih h2
      rcases p with ⟨k, v⟩
      simp [jsizeFields]
      omega

/-- Induction over `Json`, with membership hypotheses for the nested lists. -/
theorem Json.myInd (P : Json → Prop)
    (hnull : P .null) (hbool : ∀ b, P (.bool b)) (hnum : ∀ n, P (.num n))
    (hstr : ∀ s, P (.str s))
    (harr : ∀ xs, (∀ x ∈ xs, P x) → P (.arr xs))
    (hobj : ∀ kvs, (∀ kv ∈ kvs, P kv.2) → P (.obj kvs)) : ∀ v, P v := by
  have main : ∀ (n : Nat) (v : Json), jsize v ≤ n → P v := by
    intro n
    induction n with
    | zero => intro v hv; have := jsize_pos v; omega
    | succ n ih =>
      intro v hv
      cases v with
      | null => exact hnull
      | bool b => exact hbool b
      | num i => exact hnum i
      | str s => exact hstr s
      | arr xs =>
        refine harr xs (fun x hx => ih x ?_)
        have h1 := jsize_le_jsizeList hx
        simp [jsize] at hv
        omega
      | obj kvs =>
        refine hobj kvs (fun kv hkv => ih kv.2 ?_)
        have h1 := jsize_le_jsizeFields hkv
        simp [jsize] at hv
        omega
  exact fun v => main (jsize v) v (le_refl _)

/-! ## Character facts -/

theorem pyWs_cases {c : Char} (h : pyWs c = true) :
    c = ' ' ∨ c = '\t' ∨ c = '\n' ∨ c = '\x0d' ∨ c = '\x0b' ∨ c = '\x0c' := by
  simp [pyWs] at h
  tauto

theorem isJsonWs_cases {c : Char} (h : isJsonWs c = true) :
    c = ' ' ∨ c = '\t' ∨ c = '\n' ∨ c = '\x0d' := by
  simp [isJsonWs] at h
  tauto

theorem pyWs_facts {c : Char} (h : pyWs c = true) :
    c ≠ tick ∧ c ≠ 'j' ∧ c ≠ '"' := by
  rcases pyWs_cases h with rfl | rfl | rfl | rfl | rfl | rfl <;>
    exact ⟨by decide, by decide, by decide⟩

theorem isDigit_facts {c : Char} (h : c.isDigit = true) :
    c ≠ '"' ∧ c ≠ '[' ∧ c ≠ '{' ∧ c ≠ '-' ∧ c ≠ tick ∧ c ≠ 'j' ∧ c ≠ ']' ∧ c ≠ '}' ∧
    pyWs c = false ∧ isJsonWs c = false := by
  have hpw : pyWs c = false := by
    cases hw : pyWs c
    · rfl
    · rcases pyWs_cases hw with rfl | rfl | rfl | rfl | rfl | rfl <;> exact absurd h (by decide)
  have hjw : isJsonWs c = false := by
    cases hw : isJsonWs c
    · rfl
    · rcases isJsonWs_cases hw with rfl | rfl | rfl | rfl <;> exact absurd h (by decide)
  refine ⟨?_, ?_, ?_, ?_, ?_, ?_, ?_, ?_, hpw, hjw⟩ <;>
    (intro hc; subst hc; exact absurd h (by decide))

/-! ## String-literal round trip -/

theorem escStep (c : Char) (t : List Char) :
    parseStrAux (escChar c ++ t) = (parseStrAux t).map (fun p => (c :: p.1, p.2)) := by
  by_cases h1 : c = '"'
  · subst h1; simp [escChar, parseStrAux, unescChar]
  by_cases h2 : c = '\\'
  · subst h2; simp [escChar, parseStrAux, unescChar]
  by_cases h3 : c = '\n'
  · subst h3; simp [escChar, parseStrAux, unescChar]
  by_cases h4 : c = '\t'
  · subst h4; simp [escChar, parseStrAux, unescChar]
  by_cases h5 : c = '\x0d'
  · subst h5; simp [escChar, parseStrAux, unescChar]
  by_cases h6 : c = '\x08'
  · subst h6; simp [escChar, parseStrAux, unescChar]
  by_cases h7 : c = '\x0c'
  · subst h7; simp [escChar, parseStrAux, unescChar]
  · have he : escChar c = [c] := by
      simp [escChar, h1, h2, h3, h4, h5, h6, h7]
    rw [he, List.singleton_append, parseStrAux.eq_def]
    simp [h1, h2]

theorem parseStrAux_escape : ∀ (s : List Char) (rest : List Char),
    parseStrAux (escape s ++ '"' :: rest) = some (s, rest) := by
  intro s
  induction s with
  | nil =>
    intro rest
    show parseStrAux ('"' :: rest) = _
    rw [parseStrAux.eq_def]
    simp
  | cons c cs ih =>
    intro rest
    show parseStrAux ((escChar c ++ escape cs) ++ '"' :: rest) = _
    rw [List.append_assoc, escStep, ih]
    rfl

/-! ## Digit and number round trip -/

theorem digitChar_facts {d : Nat} (h : d < 10) :
    (digitChar d).isDigit = true ∧ digitVal (digitChar d) = d := by
  interval_cases d <;> exact ⟨by decide, by decide⟩

theorem natDigitsF_big {f n : Nat} (h10 : ¬ n < 10) :
    natDigitsF (f + 1) n = natDigitsF f (n / 10) ++ [digitChar (n % 10)] := by
  simp [natDigitsF, h10]

theorem natDigitsF_fuel : ∀ (f g n : Nat), n < f → n < g → natDigitsF f n = natDigitsF g n := by
  intro f
  induction f with
  | zero => intro g n h; omega
  | succ f ih =>
    intro g n hf hg
    cases g with
    | zero => omega
    | succ g =>
      by_cases h10 : n < 10
      · simp [natDigitsF, h10]
      · rw [natDigitsF_big h10, natDigitsF_big h10,
          ih g (n / 10) (by omega) (by omega)]

theorem natDigits_unfold (n : Nat) :
    natDigits n = if n < 10 then [digitChar n] else natDigits (n / 10) ++ [digitChar (n % 10)] := by
  by_cases h10 : n < 10
  · simp [natDigits, natDigitsF, h10]
  · rw [if_neg h10]
    show natDigitsF (n + 1) n = natDigits (n / 10) ++ _
    rw [natDigitsF_big h10,
      natDigitsF_fuel n (n / 10 + 1) (n / 10) (by omega) (by omega)]
    rfl

theorem natDigits_all_digit : ∀ (n : Nat) (c : Char), c ∈ natDigits n → c.isDigit = true := by
  intro n
  induction n using Nat.strong_induction_on with
  | _ n ih =>
    intro c hc
    rw [natDigits_unfold] at hc
    by_cases h10 : n < 10
    · simp [h10] at hc
      subst hc
      exact (digitChar_facts h10).1
    · simp [h10] at hc
      rcases hc with hc | hc
      · exact ih (n / 10) (Nat.div_lt_self (by omega) (by omega)) c hc
      · subst hc
        exact (digitChar_facts (Nat.mod_lt _ (by omega))).1

theorem natDigits_ne_nil (n : Nat) : natDigits n ≠ [] := by
  rw [natDigits_unfold]
  by_cases h10 : n < 10 <;> simp [h10]

theorem parseNatAux_stop : ∀ (rest : List Char) (acc : Nat),
    (∀ c cs, rest = c :: cs → c.isDigit = false) → parseNatAux rest acc = (acc, rest) := by
  intro rest acc h
  cases rest with
  | nil => rfl
  | cons c cs => simp [parseNatAux, h c cs rfl]

theorem parseNatAux_run : ∀ (ds : List Char), (∀ c ∈ ds, c.isDigit = true) →
    ∀ (acc : Nat) (rest : List Char), (∀ c cs, rest = c :: cs → c.isDigit = false) →
    parseNatAux (ds ++ rest) acc =
      (ds.foldl (fun a c => a * 10 + digitVal c) acc, rest) := by
  intro ds
  induction ds with
  | nil => intro _ acc rest hr; exact parseNatAux_stop rest acc hr
  | cons d ds ih =>
    intro hds acc rest hr
    have hd : d.isDigit = true := hds d (by simp)
    simp only [List.cons_append, parseNatAux, hd, if_true, List.foldl_cons]
    exact ih (fun c hc => hds c (by simp [hc])) _ rest hr

theorem foldl_natDigits : ∀ (n : Nat) (acc : Nat),
    (natDigits n).foldl (fun a c => a * 10 + digitVal c) acc =
      acc * 10 ^ (natDigits n).length + n := by
  intro n
  induction n using Nat.strong_induction_on with
  | _ n ih =>
    intro acc
    rw [natDigits_unfold]
    by_cases h10 : n < 10
    · simp [h10, List.foldl_cons, (digitChar_facts h10).2]
    · have hd : n / 10 < n := Nat.div_lt_self (by omega) (by omega)
      simp only [h10, if_false, List.foldl_append, List.length_append, List.foldl_cons,
        List.foldl_nil, List.length_cons, List.length_nil]
      rw [ih (n / 10) hd acc, (digitChar_facts (Nat.mod_lt _ (by omega))).2]
      rw [pow_succ]
      have := Nat.div_add_mod n 10
      ring_nf
      omega

theorem parseNum_natDigits (n : Nat) (rest : List Char)
    (hr : ∀ c cs, rest = c :: cs → c.isDigit = false) :
    parseNum (natDigits n ++ rest) = some (n, rest) := by
  obtain ⟨d, ds, hds⟩ : ∃ d ds, natDigits n = d :: ds := by
    cases h : natDigits n with
    | nil => exact absurd h (natDigits_ne_nil n)
    | cons d ds => exact ⟨d, ds, rfl⟩
  have hall : ∀ c ∈ natDigits n, c.isDigit = true := natDigits_all_digit n
  have hd : d.isDigit = true := hall d (by simp [hds])
  have hmain := parseNatAux_run (natDigits n) hall 0 rest hr
  rw [foldl_natDigits] at hmain
  rw [hds] at hmain ⊢
  simp only [List.cons_append, parseNum, hd, if_true]
  simp only [List.cons_append, parseNatAux, hd, if_true] at hmain
  simp only [Nat.zero_mul, Nat.zero_add] at hmain ⊢
  exact congrArg some hmain

/-! ## Shape of rendered text -/

theorem natDigits_shape (n : Nat) :
    ∃ d ds, natDigits n = d :: ds ∧ d.isDigit = true := by
  cases h : natDigits n with
  | nil => exact absurd h (natDigits_ne_nil n)
  | cons d ds => exact ⟨d, ds, rfl, natDigits_all_digit n d (by simp [h])⟩

theorem natDigits_last (n : Nat) :
    ∃ c, (natDigits n).getLast? = some c ∧ c.isDigit = true := by
  rw [natDigits_unfold]
  by_cases h10 : n < 10
  · exact ⟨digitChar n, by simp [h10], (digitChar_facts h10).1⟩
  · refine ⟨digitChar (n % 10), ?_, (digitChar_facts (Nat.mod_lt _ (by omega))).1⟩
    simp [h10, List.getLast?_concat]

theorem render_head (v : Json) : ∃ c t, v.render = c :: t ∧
    pyWs c = false ∧ isJsonWs c = false ∧ c ≠ tick ∧ c ≠ 'j' ∧ c ≠ ']' ∧ c ≠ '}' := by
  cases v with
  | null => exact ⟨'n', _, rfl, by decide, by decide, by decide, by decide, by decide, by decide⟩
  | bool b =>
    cases b with
    | true => exact ⟨'t', _, rfl, by decide, by decide, by decide, by decide, by decide, by decide⟩
    | false => exact ⟨'f', _, rfl, by decide, by decide, by decide, by decide, by decide, by decide⟩
  | str s => exact ⟨'"', _, rfl, by decide, by decide, by decide, by decide, by decide, by decide⟩
  | arr xs => exact ⟨'[', _, rfl, by decide, by decide, by decide, by decide, by decide, by decide⟩
  | obj kvs => exact ⟨'{', _, rfl, by decide, by decide, by decide, by decide, by decide, by decide⟩
  | num i =>
    show ∃ c t, intChars i = c :: t ∧ _
    unfold intChars
    by_cases hneg : i < 0
    · exact ⟨'-', natDigits (-i).toNat, by simp [hneg], by decide, by decide, by decide,
        by decide, by decide, by decide⟩
    · obtain ⟨d, ds, hds, hd⟩ := natDigits_shape i.toNat
      obtain ⟨h1, h2, h3, h4, h5, h6, h7, h8, h9, h10⟩ := isDigit_facts hd
      exact ⟨d, ds, by simp [hneg, hds], h9, h10, h5, h6, h7, h8⟩

theorem render_last (v : Json) :
    ∃ c, (v.render).getLast? = some c ∧ c ≠ tick ∧ pyWs c = false := by
  cases v with
  | null => exact ⟨'l', by decide, by decide, by decide⟩
  | bool b =>
    cases b with
    | true => exact ⟨'e', by decide, by decide, by decide⟩
    | false => exact ⟨'e', by decide, by decide, by decide⟩
  | str s =>
    refine ⟨'"', ?_, by decide, by decide⟩
    show ('"' :: (escape s.data ++ ['"'])).getLast? = _
    rw [show '"' :: (escape s.data ++ ['"']) = ('"' :: escape s.data) ++ ['"'] from rfl]
    exact List.getLast?_concat _
  | arr xs =>
    refine ⟨']', ?_, by decide, by decide⟩
    show ('[' :: (renderElems xs ++ [']'])).getLast? = _
    rw [show '[' :: (renderElems xs ++ [']']) = ('[' :: renderElems xs) ++ [']'] from rfl]
    exact List.getLast?_concat _
  | obj kvs =>
    refine ⟨'}', ?_, by decide, by decide⟩
    show ('{' :: (renderFields kvs ++ ['}'])).getLast? = _
    rw [show '{' :: (renderFields kvs ++ ['}']) = ('{' :: renderFields kvs) ++ ['}'] from rfl]
    exact List.getLast?_concat _
  | num i =>
    show ∃ c, (intChars i).getLast? = some c ∧ _
    unfold intChars
    by_cases hneg : i < 0
    · obtain ⟨c, hc, hcd⟩ := natDigits_last (-i).toNat
      obtain ⟨d, ds, hds, -⟩ := natDigits_shape (-i).toNat
      obtain ⟨-, -, -, -, h5, -, -, -, h9, -⟩ := isDigit_facts hcd
      refine ⟨c, ?_, h5, h9⟩
      rw [if_pos hneg, hds, List.getLast?_cons_cons, ← hds, hc]
    · obtain ⟨c, hc, hcd⟩ := natDigits_last i.toNat
      obtain ⟨-, -, -, -, h5, -, -, -, h9, -⟩ := isDigit_facts hcd
      exact ⟨c, by simp [hneg, hc], h5, h9⟩

/-! ## Parser round trip -/

theorem skipWs_cons_false {c : Char} (h : isJsonWs c = false) (t : List Char) :
    skipWs (c :: t) = c :: t := by
  simp [skipWs, List.dropWhile_cons, h]

theorem skipWs_cons_true {c : Char} (h : isJsonWs c = true) (t : List Char) :
    skipWs (c :: t) = skipWs t := by
  simp [skipWs, List.dropWhile_cons, h]

theorem jsizeList_pos : ∀ xs : List Json, 0 < jsizeList xs := by
  intro xs
  cases xs <;> simp [jsizeList]

theorem jsizeFields_pos : ∀ kvs : List (String × Json), 0 < jsizeFields kvs := by
  intro kvs
  rcases kvs with _ | ⟨⟨k, v⟩, kvs⟩ <;> simp [jsizeFields]

theorem renderElems_cons_shape (y : Json) (ys : List Json) :
    ∃ tl, renderElems (y :: ys) = y.render ++ tl := by
  cases ys with
  | nil => exact ⟨[], by simp [renderElems]⟩
  | cons z zs => exact ⟨',' :: ' ' :: renderElems (z :: zs), by simp [renderElems]⟩

theorem skipWs_render_append (y : Json) (r : List Char) :
    skipWs (y.render ++ r) = y.render ++ r := by
  obtain ⟨c, t, hct, -, hjw, -⟩ := render_head y
  rw [hct, List.cons_append, skipWs_cons_false hjw]

theorem skipWs_renderElems_append (y : Json) (ys : List Json) (r : List Char) :
    skipWs (renderElems (y :: ys) ++ r) = renderElems (y :: ys) ++ r := by
  obtain ⟨tl, htl⟩ := renderElems_cons_shape y ys
  rw [htl, List.append_assoc, skipWs_render_append]

theorem parseElems_render : ∀ (xs : List Json),
    (∀ x ∈ xs, ∀ (fuel : Nat) (rest : List Char), jsize x ≤ fuel →
      (∀ c cs, rest = c :: cs → c.isDigit = false) →
      parseVal fuel (x.render ++ rest) = some (x, rest)) →
    xs ≠ [] → ∀ (fuel : Nat) (rest : List Char), jsizeList xs ≤ fuel →
    parseElems fuel (renderElems xs ++ ']' :: rest) = some (xs, rest) := by
  intro xs
  induction xs with
  | nil => intro _ hne; exact absurd rfl hne
  | cons x xs ih =>
    intro hP _ fuel rest hsz
    have hx := jsize_pos x
    have hxs := jsizeList_pos xs
    cases fuel with
    | zero => simp [jsizeList] at hsz
    | succ f =>
      cases xs with
      | nil =>
        have hstep := hP x (by simp) f (']' :: rest)
          (by simp [jsizeList] at hsz; omega)
          (by intro c cs hc; cases hc; decide)
        rw [show renderElems [x] = x.render from rfl, parseElems.eq_def]
        dsimp only
        rw [hstep]
        dsimp only
        rw [show skipWs (']' :: rest) = ']' :: rest from skipWs_cons_false (by decide) rest]
        simp
      | cons y ys =>
        have hR : renderElems (x :: y :: ys) ++ ']' :: rest =
            x.render ++ (',' :: ' ' :: (renderElems (y :: ys) ++ ']' :: rest)) := by
          simp [renderElems]
        have hstep := hP x (by simp) f (',' :: ' ' :: (renderElems (y :: ys) ++ ']' :: rest))
          (by simp [jsizeList] at hsz ⊢; omega)
          (by intro c cs hc; cases hc; decide)
        rw [hR, parseElems.eq_def]
        dsimp only
        rw [hstep]
        dsimp only
        rw [show skipWs (',' :: ' ' :: (renderElems (y :: ys) ++ ']' :: rest)) =
              ',' :: ' ' :: (renderElems (y :: ys) ++ ']' :: rest) from
            skipWs_cons_false (by decide) _]
        dsimp only
        rw [if_pos rfl]
        rw [show skipWs (' ' :: (renderElems (y :: ys) ++ ']' :: rest)) =
              skipWs (renderElems (y :: ys) ++ ']' :: rest) from
            skipWs_cons_true (by decide) _]
        rw [skipWs_renderElems_append]
        rw [ih (fun z hz => hP z (by simp [hz])) (by simp) f rest
          (by simp [jsizeList] at hsz ⊢; omega)]
        rfl

theorem renderFields_cons_shape (kv : String × Json) (kvs : List (String × Json)) :
    ∃ tl, renderFields (kv :: kvs) = '"' :: tl := by
  rcases kv with ⟨k, v⟩
  cases kvs with
  | nil => exact ⟨escape k.data ++ ['"'] ++ (':' :: ' ' :: v.render), by simp [renderFields, strChars]⟩
  | cons kv2 kvs2 =>
    exact ⟨escape k.data ++ ['"'] ++ (':' :: ' ' :: v.render) ++
      ',' :: ' ' :: renderFields (kv2 :: kvs2), by simp [renderFields, strChars]⟩

theorem skipWs_renderFields_append (kv : String × Json) (kvs : List (String × Json))
    (r : List Char) :
    skipWs (renderFields (kv :: kvs) ++ r) = renderFields (kv :: kvs) ++ r := by
  obtain ⟨tl, htl⟩ := renderFields_cons_shape kv kvs
  rw [htl, List.cons_append, skipWs_cons_false (by decide)]

theorem parseFields_render : ∀ (kvs : List (String × Json)),
    (∀ kv ∈ kvs, ∀ (fuel : Nat) (rest : List Char), jsize (Prod.snd kv) ≤ fuel →
      (∀ c cs, rest = c :: cs → c.isDigit = false) →
      parseVal fuel ((Prod.snd kv).render ++ rest) = some (Prod.snd kv, rest)) →
    kvs ≠ [] → ∀ (fuel : Nat) (rest : List Char), jsizeFields kvs ≤ fuel →
    parseFields fuel (renderFields kvs ++ '}' :: rest) = some (kvs, rest) := by
  intro kvs
  induction kvs with
  | nil => intro _ hne; exact absurd rfl hne
  | cons kv kvs ih =>
    intro hP _ fuel rest hsz
    rcases kv with ⟨k, v⟩
    have hv := jsize_pos v
    cases fuel with
    | zero => simp [jsizeFields] at hsz
    | succ f =>
      cases kvs with
      | nil =>
        have hstep := hP (k, v) (by simp) f ('}' :: rest)
          (by simp [jsizeFields] at hsz; show jsize v ≤ f; omega)
          (by intro c cs hc; cases hc; decide)
        have hshape : renderFields [(k, v)] ++ '}' :: rest =
            '"' :: (escape k.data ++ '"' :: (':' :: ' ' :: (v.render ++ '}' :: rest))) := by
          simp [renderFields, strChars]
        rw [hshape, parseFields.eq_def]
        dsimp only
        rw [if_pos rfl, parseStrAux_escape]
        dsimp only
        rw [show skipWs (':' :: ' ' :: (v.render ++ '}' :: rest)) =
              ':' :: ' ' :: (v.render ++ '}' :: rest) from skipWs_cons_false (by decide) _]
        dsimp only
        rw [if_pos rfl]
        rw [show skipWs (' ' :: (v.render ++ '}' :: rest)) =
              skipWs (v.render ++ '}' :: rest) from skipWs_cons_true (by decide) _]
        rw [skipWs_render_append, hstep]
        dsimp only
        rw [show skipWs ('}' :: rest) = '}' :: rest from skipWs_cons_false (by decide) rest]
        simp
      | cons kv2 kvs2 =>
        have hstep := hP (k, v) (by simp) f
          (',' :: ' ' :: (renderFields (kv2 :: kvs2) ++ '}' :: rest))
          (by simp [jsizeFields] at hsz; show jsize v ≤ f; omega)
          (by intro c cs hc; cases hc; decide)
        have hshape : renderFields ((k, v) :: kv2 :: kvs2) ++ '}' :: rest =
            '"' :: (escape k.data ++ '"' :: (':' :: ' ' ::
              (v.render ++ ',' :: ' ' :: (renderFields (kv2 :: kvs2) ++ '}' :: rest)))) := by
          simp [renderFields, strChars]
        rw [hshape, parseFields.eq_def]
        dsimp only
        rw [if_pos rfl, parseStrAux_escape]
        dsimp only
        rw [show skipWs (':' :: ' ' ::
              (v.render ++ ',' :: ' ' :: (renderFields (kv2 :: kvs2) ++ '}' :: rest))) =
            ':' :: ' ' :: (v.render ++ ',' :: ' ' ::
              (renderFields (kv2 :: kvs2) ++ '}' :: rest)) from skipWs_cons_false (by decide) _]
        dsimp only
        rw [if_pos rfl]
        rw [show skipWs (' ' ::
              (v.render ++ ',' :: ' ' :: (renderFields (kv2 :: kvs2) ++ '}' :: rest))) =
            skipWs (v.render ++ ',' :: ' ' ::
              (renderFields (kv2 :: kvs2) ++ '}' :: rest)) from skipWs_cons_true (by decide) _]
        rw [skipWs_render_append, hstep]
        dsimp only
        rw [show skipWs (',' :: ' ' :: (renderFields (kv2 :: kvs2) ++ '}' :: rest)) =
              ',' :: ' ' :: (renderFields (kv2 :: kvs2) ++ '}' :: rest) from
            skipWs_cons_false (by decide) _]
        dsimp only
        rw [if_pos rfl]
        rw [show skipWs (' ' :: (renderFields (kv2 :: kvs2) ++ '}' :: rest)) =
              skipWs (renderFields (kv2 :: kvs2) ++ '}' :: rest) from
            skipWs_cons_true (by decide) _]
        rw [skipWs_renderFields_append]
        rw [ih (fun z hz => hP z (by simp [hz])) (by simp) f rest
          (by simp [jsizeFields] at hsz ⊢; omega)]
        rfl

theorem parseVal_render : ∀ (v : Json) (fuel : Nat) (rest : List Char), jsize v ≤ fuel →
    (∀ c cs, rest = c :: cs → c.isDigit = false) →
    parseVal fuel (v.render ++ rest) = some (v, rest) := by
  intro v
  induction v using Json.myInd with
  | hnull =>
    intro fuel rest hsz hrest
    cases fuel with
    | zero => simp [jsize] at hsz
    | succ f =>
      show parseVal (f + 1) ('n' :: 'u' :: 'l' :: 'l' :: rest) = _
      rw [parseVal.eq_def]
      dsimp only
      simp [parseLit]
  | hbool b =>
    intro fuel rest hsz hrest
    cases fuel with
    | zero => simp [jsize] at hsz
    | succ f =>
      cases b with
      | true =>
        show parseVal (f + 1) ('t' :: 'r' :: 'u' :: 'e' :: rest) = _
        rw [parseVal.eq_def]
        dsimp only
        simp [parseLit]
      | false =>
        show parseVal (f + 1) ('f' :: 'a' :: 'l' :: 's' :: 'e' :: rest) = _
        rw [parseVal.eq_def]
        dsimp only
        simp [parseLit]
  | hnum i =>
    intro fuel rest hsz hrest
    cases fuel with
    | zero => simp [jsize] at hsz
    | succ f =>
      by_cases hneg : i < 0
      · have hm : Json.render (.num i) = '-' :: natDigits (-i).toNat := by
          simp [Json.render, intChars, hneg]
        rw [hm, List.cons_append, parseVal.eq_def]
        dsimp only
        rw [if_neg (by decide), if_neg (by decide), if_neg (by decide), if_pos rfl]
        rw [parseNum_natDigits _ rest hrest]
        simp only [Option.map_some']
        rw [Int.toNat_of_nonneg (by omega), Int.neg_neg]
      · obtain ⟨d, ds, hds, hd⟩ := natDigits_shape i.toNat
        obtain ⟨h1, h2, h3, h4, -, -, -, -, -, -⟩ := isDigit_facts hd
        have hm : Json.render (.num i) = natDigits i.toNat := by
          simp [Json.render, intChars, hneg]
        rw [hm, hds, List.cons_append, parseVal.eq_def]
        dsimp only
        rw [if_neg h1, if_neg h2, if_neg h3, if_neg h4, if_pos hd]
        rw [← List.cons_append, ← hds, parseNum_natDigits _ rest hrest]
        simp only [Option.map_some']
        rw [Int.toNat_of_nonneg (by omega)]
  | hstr s =>
    intro fuel rest hsz hrest
    cases fuel with
    | zero => simp [jsize] at hsz
    | succ f =>
      have hshape : Json.render (.str s) ++ rest = '"' :: (escape s.data ++ '"' :: rest) := by
        simp [Json.render, strChars]
      rw [hshape, parseVal.eq_def]
      dsimp only
      rw [if_pos rfl, parseStrAux_escape]
      rfl
  | harr xs hP =>
    intro fuel rest hsz hrest
    cases fuel with
    | zero => have := jsize_pos (.arr xs); omega
    | succ f =>
      cases xs with
      | nil =>
        show parseVal (f + 1) ('[' :: ']' :: rest) = _
        rw [parseVal.eq_def]
        dsimp only
        rw [if_neg (by decide), if_pos rfl]
        rw [show skipWs (']' :: rest) = ']' :: rest from skipWs_cons_false (by decide) rest]
        dsimp only
        rw [if_pos rfl]
      | cons x xs2 =>
        have hshape : Json.render (.arr (x :: xs2)) ++ rest =
            '[' :: (renderElems (x :: xs2) ++ ']' :: rest) := by
          simp [Json.render]
        rw [hshape, parseVal.eq_def]
        dsimp only
        rw [if_neg (by decide), if_pos rfl]
        rw [skipWs_renderElems_append]
        obtain ⟨tl, htl⟩ := renderElems_cons_shape x xs2
        obtain ⟨c, t, hct, -, -, -, -, hcrb, -⟩ := render_head x
        have hform : renderElems (x :: xs2) ++ ']' :: rest =
            c :: (t ++ tl ++ ']' :: rest) := by
          rw [htl, hct]
          simp
        rw [hform]
        dsimp only
        rw [if_neg hcrb, ← hform]
        rw [parseElems_render (x :: xs2) hP (by simp) f rest
          (by simp [jsize] at hsz; simp [jsizeList] at hsz ⊢; omega)]
        rfl
  | hobj kvs hP =>
    intro fuel rest hsz hrest
    cases fuel with
    | zero => have := jsize_pos (.obj kvs); omega
    | succ f =>
      cases kvs with
      | nil =>
        show parseVal (f + 1) ('{' :: '}' :: rest) = _
        rw [parseVal.eq_def]
        dsimp only
        rw [if_neg (by decide), if_neg (by decide), if_pos rfl]
        rw [show skipWs ('}' :: rest) = '}' :: rest from skipWs_cons_false (by decide) rest]
        dsimp only
        rw [if_pos rfl]
      | cons kv kvs2 =>
        have hshape : Json.render (.obj (kv :: kvs2)) ++ rest =
            '{' :: (renderFields (kv :: kvs2) ++ '}' :: rest) := by
          simp [Json.render]
        rw [hshape, parseVal.eq_def]
        dsimp only
        rw [if_neg (by decide), if_neg (by decide), if_pos rfl]
        rw [skipWs_renderFields_append]
        obtain ⟨tl, htl⟩ := renderFields_cons_shape kv kvs2
        have hform : renderFields (kv :: kvs2) ++ '}' :: rest =
            '"' :: (tl ++ '}' :: rest) := by
          rw [htl]
          simp
        rw [hform]
        dsimp only
        rw [if_neg (by decide), ← hform]
        rw [parseFields_render (kv :: kvs2) hP (by simp) f rest
          (by simp [jsize] at hsz; simp [jsizeFields] at hsz ⊢; omega)]
        rfl

theorem render_length_pos (v : Json) : 0 < (v.render).length := by
  obtain ⟨c, t, hct, -⟩ := render_head v
  simp [hct]

theorem jsizeList_le (xs : List Json)
    (hP : ∀ x ∈ xs, jsize x ≤ 2 * (x.render).length) :
    jsizeList xs ≤ 2 * (renderElems xs).length + 2 := by
  induction xs with
  | nil => simp [jsizeList, renderElems]
  | cons x xs2 ih =>
    have hx := hP x (by simp)
    cases xs2 with
    | nil =>
      simp only [jsizeList, renderElems]
      omega
    | cons y ys =>
      have ih2 := ih (fun z hz => hP z (by simp [hz]))
      simp only [jsizeList] at ih2 ⊢
      simp only [renderElems, List.length_append, List.length_cons]
      omega

theorem jsizeFields_le (kvs : List (String × Json))
    (hP : ∀ kv ∈ kvs, jsize (Prod.snd kv) ≤ 2 * ((Prod.snd kv).render).length) :
    jsizeFields kvs ≤ 2 * (renderFields kvs).length + 2 := by
  induction kvs with
  | nil => simp [jsizeFields, renderFields]
  | cons kv kvs2 ih =>
    have hx := hP kv (by simp)
    rcases kv with ⟨k, v⟩
    cases kvs2 with
    | nil =>
      simp only [jsizeFields, renderFields, List.length_append, List.length_cons]
      simp only at hx
      omega
    | cons kv2 kvs3 =>
      have ih2 := ih (fun z hz => hP z (by simp [hz]))
      simp only at hx
      simp only [jsizeFields] at ih2 ⊢
      simp only [renderFields, List.length_append, List.length_cons]
      omega

theorem jsize_le_two_render : ∀ v : Json, jsize v ≤ 2 * (v.render).length := by
  intro v
  induction v using Json.myInd with
  | hnull => simp [jsize, Json.render]
  | hbool b => cases b <;> simp [jsize, Json.render]
  | hnum i =>
    have := render_length_pos (.num i)
    simp only [jsize]
    omega
  | hstr s =>
    have := render_length_pos (.str s)
    simp only [jsize]
    omega
  | harr xs hP =>
    have hlist := jsizeList_le xs hP
    show 1 + jsizeList xs ≤ 2 * ('[' :: renderElems xs ++ [']']).length
    simp only [List.length_cons, List.length_append]
    omega
  | hobj kvs hP =>
    have hlist := jsizeFields_le kvs hP
    show 1 + jsizeFields kvs ≤ 2 * ('{' :: renderFields kvs ++ ['}']).length
    simp only [List.length_cons, List.length_append]
    omega

/-- Model of the `json.dumps` / `json.loads` round trip. -/
theorem loads_dumps (v : Json) : loads v.dumps = some v := by
  have hskip : skipWs v.render = v.render := by
    obtain ⟨c, t, hct, -, hjw, -⟩ := render_head v
    rw [hct, skipWs_cons_false hjw]
  have h2 := parseVal_render v (2 * (v.render).length + 2) []
    (le_trans (jsize_le_two_render v) (by omega))
    (by intro c cs h; simp at h)
  rw [List.append_nil] at h2
  show loads ⟨v.render⟩ = some v
  unfold loads
  rw [show (String.mk v.render).data = v.render from rfl, hskip]
  simp only [h2]
  rfl

/-! ## Behaviour of the substitution passes -/

theorem matchesAt_self_append (pat r : List Char) : matchesAt pat (pat ++ r) = true := by
  induction pat with
  | nil => simp [matchesAt]
  | cons p ps ih => simp [matchesAt, ih]

theorem matchesAt_short : ∀ (pat l r : List Char), pat.length ≤ l.length →
    matchesAt pat (l ++ r) = matchesAt pat l := by
  intro pat
  induction pat with
  | nil => intro l r _; simp [matchesAt]
  | cons p ps ih =>
    intro l r hl
    cases l with
    | nil => simp at hl
    | cons c cs =>
      simp only [List.cons_append, matchesAt]
      rw [show cs.append r = cs ++ r from rfl, ih cs r (by simpa using hl)]

theorem matchesAt_of_append {p1 p2 : List Char} : ∀ {l : List Char},
    matchesAt (p1 ++ p2) l = true → matchesAt p1 l = true := by
  induction p1 with
  | nil => intro l _; simp [matchesAt]
  | cons p ps ih =>
    intro l h
    cases l with
    | nil => simp [matchesAt] at h
    | cons c cs =>
      simp only [List.cons_append, matchesAt, Bool.and_eq_true] at h ⊢
      exact ⟨h.1, ih h.2⟩

theorem hasSeq_of_parts (pat : List Char) : ∀ (b1 b2 : List Char),
    matchesAt pat b2 = true → hasSeq pat (b1 ++ b2) = true := by
  intro b1
  induction b1 with
  | nil =>
    intro b2 h
    cases b2 with
    | nil =>
      cases pat with
      | nil => simp [hasSeq]
      | cons p ps => simp [matchesAt] at h
    | cons c cs => simp [hasSeq, h]
  | cons c b1' ih =>
    intro b2 h
    simp only [List.cons_append, hasSeq, Bool.or_eq_true]
    exact Or.inr (ih b2 h)

theorem subPass_fuel (pat : List Char) (hpat : pat ≠ []) :
    ∀ (f g : Nat) (s : List Char), s.length ≤ f → s.length ≤ g →
      subPass pat f s = subPass pat g s := by
  intro f
  induction f with
  | zero =>
    intro g s hf _
    have : s = [] := by
      cases s with
      | nil => rfl
      | cons c cs => simp at hf
    subst this
    cases g <;> rfl
  | succ f ih =>
    intro g s hf hg
    cases s with
    | nil => cases g <;> rfl
    | cons c cs =>
      cases g with
      | zero => simp at hg
      | succ g =>
        obtain ⟨p, ps, rfl⟩ : ∃ p ps, pat = p :: ps := by
          cases pat with
          | nil => exact absurd rfl hpat
          | cons p ps => exact ⟨p, ps, rfl⟩
        rw [subPass.eq_def]
        conv_rhs => rw [subPass.eq_def]
        dsimp only
        cases hm : matchesAt (p :: ps) (c :: cs) with
        | true =>
          simp only [if_pos rfl]
          apply ih
          · have h1 := dropWhile_len_le pyWs (List.drop (p :: ps).length (c :: cs))
            have h2 : (List.drop (p :: ps).length (c :: cs)).length ≤ cs.length := by
              rw [List.length_drop]
              simp
            simp at hf
            omega
          · have h1 := dropWhile_len_le pyWs (List.drop (p :: ps).length (c :: cs))
            have h2 : (List.drop (p :: ps).length (c :: cs)).length ≤ cs.length := by
              rw [List.length_drop]
              simp
            simp at hg
            omega
        | false =>
          simp only [Bool.false_eq_true, if_false, List.cons.injEq, true_and]
          apply ih
          · simp at hf; omega
          · simp at hg; omega

theorem runPass_step_nomatch {pat : List Char} (c : Char) (s : List Char)
    (hm : matchesAt pat (c :: s) = false) :
    runPass pat (c :: s) = c :: runPass pat s := by
  unfold runPass
  rw [subPass.eq_def]
  simp only [List.length_cons, hm, Bool.false_eq_true, if_false]

theorem subPass_cons (pat : List Char) (f : Nat) (c : Char) (cs : List Char) :
    subPass pat (f + 1) (c :: cs) =
      if matchesAt pat (c :: cs) then
        subPass pat f ((List.drop pat.length (c :: cs)).dropWhile pyWs)
      else c :: subPass pat f cs := by
  rw [subPass.eq_def]

theorem runPass_step_match {pat : List Char} (hpat : pat ≠ []) (r : List Char) :
    runPass pat (pat ++ r) = runPass pat (r.dropWhile pyWs) := by
  obtain ⟨p, ps, rfl⟩ : ∃ p ps, pat = p :: ps := by
    cases pat with
    | nil => exact absurd rfl hpat
    | cons p ps => exact ⟨p, ps, rfl⟩
  unfold runPass
  rw [show (p :: ps) ++ r = p :: (ps ++ r) from rfl, List.length_cons, subPass_cons]
  rw [show p :: (ps ++ r) = (p :: ps) ++ r from rfl]
  rw [matchesAt_self_append]
  simp only [if_true]
  rw [List.drop_left]
  apply subPass_fuel _ hpat
  · have h1 := dropWhile_len_le pyWs r
    simp
    omega
  · exact le_refl _

theorem runPass_ws_skip {pat : List Char} {ps : List Char} (hp : pat = tick :: ps) :
    ∀ (a r : List Char), (∀ c ∈ a, pyWs c = true) →
      runPass pat (a ++ r) = a ++ runPass pat r := by
  intro a
  induction a with
  | nil => intro r _; simp
  | cons w a' ih =>
    intro r hws
    have hw : pyWs w = true := hws w (by simp)
    have hne : w ≠ tick := by
      intro h
      subst h
      exact absurd hw (by decide)
    have hm : matchesAt pat (w :: (a' ++ r)) = false := by
      rw [hp]
      simp [matchesAt]
      intro h
      exact absurd h.symm hne
    rw [List.cons_append, runPass_step_nomatch w _ hm, ih r (fun c hc => hws c (by simp [hc]))]
    rfl

theorem runPass_seg {pat : List Char} :
    ∀ (s r : List Char),
      (∀ s1 s2, s = s1 ++ s2 → s2 ≠ [] → matchesAt pat (s2 ++ r) = false) →
      runPass pat (s ++ r) = s ++ runPass pat r := by
  intro s
  induction s with
  | nil => intro r _; simp
  | cons c cs ih =>
    intro r hno
    have hm : matchesAt pat ((c :: cs) ++ r) = false := hno [] (c :: cs) rfl (by simp)
    rw [List.cons_append] at hm ⊢
    rw [runPass_step_nomatch c _ hm]
    rw [ih r (fun s1 s2 hs hne => hno (c :: s1) s2 (by simp [hs]) hne)]
    rfl

theorem ws_no_match_j {s : List Char} (h : ∀ c ∈ s, pyWs c = true) (ps : List Char) :
    matchesAt ('j' :: ps) s = false := by
  cases s with
  | nil => simp [matchesAt]
  | cons w t =>
    have := (pyWs_facts (h w (by simp))).2.1
    simp [matchesAt]
    intro hw
    exact absurd hw.symm this

theorem ws_no_match_tick {s : List Char} (h : ∀ c ∈ s, pyWs c = true) (ps : List Char) :
    matchesAt (tick :: ps) s = false := by
  cases s with
  | nil => simp [matchesAt]
  | cons w t =>
    have := (pyWs_facts (h w (by simp))).1
    simp [matchesAt]
    intro hw
    exact absurd hw.symm this

theorem no_match_head {X : List Char}
    (h : ∀ c t, X = c :: t → (c ≠ 'j' ∧ c ≠ tick)) (ps : List Char) :
    matchesAt ('j' :: ps) X = false ∧ matchesAt (tick :: ps) X = false := by
  cases X with
  | nil => simp [matchesAt]
  | cons c t =>
    obtain ⟨h1, h2⟩ := h c t rfl
    constructor <;> (simp [matchesAt]; intro hw; first | exact absurd hw.symm h1 | exact absurd hw.symm h2)

theorem body_no_match {body : List Char} (hns : hasSeq fencePat body = false)
    (hlast : body.getLast? ≠ some tick) :
    ∀ b1 b2 r, body = b1 ++ b2 → b2 ≠ [] → matchesAt fencePat (b2 ++ r) = false := by
  intro b1 b2 r hsplit hne
  cases hm : matchesAt fencePat (b2 ++ r) with
  | false => rfl
  | true =>
    exfalso
    rcases b2 with _ | ⟨x, b2'⟩
    · exact hne rfl
    rcases b2' with _ | ⟨y, b2''⟩
    · simp [fencePat, matchesAt] at hm
      obtain ⟨hx, -⟩ := hm
      subst hx
      rw [hsplit, List.getLast?_concat] at hlast
      exact hlast rfl
    rcases b2'' with _ | ⟨z, b2'''⟩
    · simp [fencePat, matchesAt] at hm
      obtain ⟨hx, hy, -⟩ := hm
      subst hx
      subst hy
      rw [hsplit,
        show b1 ++ [tick, tick] = (b1 ++ [tick]) ++ [tick] from by simp,
        List.getLast?_concat] at hlast
      exact hlast rfl
    · simp [fencePat, matchesAt] at hm
      obtain ⟨hx, hy, hz⟩ := hm
      subst hx
      subst hy
      subst hz
      have hmb : matchesAt fencePat (tick :: tick :: tick :: b2''') = true := by
        simp [fencePat, matchesAt]
      rw [hsplit, hasSeq_of_parts fencePat b1 _ hmb] at hns
      simp at hns

theorem body_no_match7 {body : List Char} (hns : hasSeq fencePat body = false)
    (hlast : body.getLast? ≠ some tick) :
    ∀ b1 b2 r, body = b1 ++ b2 → b2 ≠ [] → matchesAt fenceJsonPat (b2 ++ r) = false := by
  intro b1 b2 r hsplit hne
  cases hm : matchesAt fenceJsonPat (b2 ++ r) with
  | false => rfl
  | true =>
    exfalso
    have h3 : matchesAt fencePat (b2 ++ r) = true :=
      @matchesAt_of_append fencePat ['j', 's', 'o', 'n'] (b2 ++ r) hm
    rw [body_no_match hns hlast b1 b2 r hsplit hne] at h3
    simp at h3

theorem dropWhile_ws_all {s : List Char} (h : ∀ c ∈ s, pyWs c = true) :
    s.dropWhile pyWs = [] := by
  induction s with
  | nil => rfl
  | cons c cs ih =>
    rw [List.dropWhile_cons, if_pos (h c (by simp))]
    exact ih (fun d hd => h d (by simp [hd]))

theorem dropWhile_ws_append {a : List Char} (r : List Char) (h : ∀ c ∈ a, pyWs c = true) :
    (a ++ r).dropWhile pyWs = r.dropWhile pyWs := by
  induction a with
  | nil => rfl
  | cons c cs ih =>
    rw [List.cons_append, List.dropWhile_cons, if_pos (h c (by simp))]
    exact ih (fun d hd => h d (by simp [hd]))

theorem runPass_nil (pat : List Char) : runPass pat [] = [] := rfl

theorem runPass_ws_id {ps s : List Char} (h : ∀ c ∈ s, pyWs c = true) :
    runPass (tick :: ps) s = s := by
  have h2 := @runPass_ws_skip (tick :: ps) ps rfl s [] h
  simpa [runPass_nil] using h2

theorem runPass7_ws_skip (a r : List Char) (h : ∀ c ∈ a, pyWs c = true) :
    runPass fenceJsonPat (a ++ r) = a ++ runPass fenceJsonPat r :=
  runPass_ws_skip rfl a r h

theorem runPass3_ws_skip (a r : List Char) (h : ∀ c ∈ a, pyWs c = true) :
    runPass fencePat (a ++ r) = a ++ runPass fencePat r :=
  runPass_ws_skip rfl a r h

theorem runPass7_match (r : List Char) :
    runPass fenceJsonPat (fenceJsonPat ++ r) = runPass fenceJsonPat (r.dropWhile pyWs) :=
  runPass_step_match (by decide) r

theorem runPass3_match (r : List Char) :
    runPass fencePat (fencePat ++ r) = runPass fencePat (r.dropWhile pyWs) :=
  runPass_step_match (by decide) r

theorem runPass7_ws_id (s : List Char) (h : ∀ c ∈ s, pyWs c = true) :
    runPass fenceJsonPat s = s :=
  runPass_ws_id h

theorem runPass7_close {wsD : List Char} (hD : ∀ c ∈ wsD, pyWs c = true) :
    runPass fenceJsonPat (fencePat ++ wsD) = fencePat ++ wsD := by
  have hm1 : matchesAt fenceJsonPat (tick :: tick :: tick :: wsD) = false := by
    simp [fenceJsonPat, matchesAt]
    exact ws_no_match_j hD _
  have hm2 : matchesAt fenceJsonPat (tick :: tick :: wsD) = false := by
    simp [fenceJsonPat, matchesAt]
    exact ws_no_match_tick hD _
  have hm3 : matchesAt fenceJsonPat (tick :: wsD) = false := by
    simp [fenceJsonPat, matchesAt]
    exact ws_no_match_tick hD _
  show runPass fenceJsonPat (tick :: tick :: tick :: wsD) = _
  rw [runPass_step_nomatch _ _ hm1, runPass_step_nomatch _ _ hm2, runPass_step_nomatch _ _ hm3,
    runPass7_ws_id wsD hD]
  rfl

theorem wsBody_head {wsB body : List Char} (R : List Char)
    (hB : ∀ c ∈ wsB, pyWs c = true)
    (hhd : ∃ hc ht, body = hc :: ht ∧ pyWs hc = false ∧ hc ≠ tick ∧ hc ≠ 'j') :
    ∀ c t, wsB ++ (body ++ R) = c :: t → c ≠ 'j' ∧ c ≠ tick := by
  obtain ⟨hc, ht, rfl, hw, hnt, hnj⟩ := hhd
  cases wsB with
  | nil =>
    intro c t hct
    simp at hct
    obtain ⟨rfl, -⟩ := hct
    exact ⟨hnj, hnt⟩
  | cons w ws' =>
    intro c t hct
    simp at hct
    obtain ⟨rfl, -⟩ := hct
    have hw2 := pyWs_facts (hB w (by simp))
    exact ⟨hw2.2.1, hw2.1⟩

theorem dropWhile_wsBody {wsB body : List Char} (R : List Char)
    (hB : ∀ c ∈ wsB, pyWs c = true)
    (hhd : ∃ hc ht, body = hc :: ht ∧ pyWs hc = false ∧ hc ≠ tick ∧ hc ≠ 'j') :
    (wsB ++ (body ++ R)).dropWhile pyWs = body ++ R := by
  obtain ⟨hc, ht, rfl, hw, -, -⟩ := hhd
  rw [dropWhile_ws_append _ hB, List.cons_append, List.dropWhile_cons, if_neg (by simp [hw])]

theorem pass1_tagged {wsA wsB body wsC wsD : List Char}
    (hA : ∀ c ∈ wsA, pyWs c = true) (hB : ∀ c ∈ wsB, pyWs c = true)
    (hC : ∀ c ∈ wsC, pyWs c = true) (hD : ∀ c ∈ wsD, pyWs c = true)
    (hns : hasSeq fencePat body = false)
    (hhd : ∃ hc ht, body = hc :: ht ∧ pyWs hc = false ∧ hc ≠ tick ∧ hc ≠ 'j')
    (hlast : body.getLast? ≠ some tick) :
    runPass fenceJsonPat (wsA ++ (fenceJsonPat ++ (wsB ++ (body ++ (wsC ++ (fencePat ++ wsD)))))) =
      wsA ++ (body ++ (wsC ++ (fencePat ++ wsD))) := by
  rw [runPass7_ws_skip wsA _ hA]
  rw [runPass7_match _]
  rw [dropWhile_wsBody _ hB hhd]
  rw [runPass_seg _ _ (fun s1 s2 hs hne => body_no_match7 hns hlast s1 s2 _ hs hne)]
  rw [runPass7_ws_skip wsC _ hC]
  rw [runPass7_close hD]

theorem pass1_untagged {wsA wsB body wsC wsD : List Char}
    (hA : ∀ c ∈ wsA, pyWs c = true) (hB : ∀ c ∈ wsB, pyWs c = true)
    (hC : ∀ c ∈ wsC, pyWs c = true) (hD : ∀ c ∈ wsD, pyWs c = true)
    (hns : hasSeq fencePat body = false)
    (hhd : ∃ hc ht, body = hc :: ht ∧ pyWs hc = false ∧ hc ≠ tick ∧ hc ≠ 'j')
    (hlast : body.getLast? ≠ some tick) :
    runPass fenceJsonPat (wsA ++ (fencePat ++ (wsB ++ (body ++ (wsC ++ (fencePat ++ wsD)))))) =
      wsA ++ (fencePat ++ (wsB ++ (body ++ (wsC ++ (fencePat ++ wsD))))) := by
  have hX := wsBody_head (wsC ++ (fencePat ++ wsD)) hB hhd
  have hm1 : matchesAt fenceJsonPat
      (tick :: tick :: tick :: (wsB ++ (body ++ (wsC ++ (fencePat ++ wsD))))) = false := by
    simp [fenceJsonPat, matchesAt]
    exact (no_match_head hX _).1
  have hm2 : matchesAt fenceJsonPat
      (tick :: tick :: (wsB ++ (body ++ (wsC ++ (fencePat ++ wsD))))) = false := by
    simp [fenceJsonPat, matchesAt]
    exact (no_match_head hX _).2
  have hm3 : matchesAt fenceJsonPat
      (tick :: (wsB ++ (body ++ (wsC ++ (fencePat ++ wsD))))) = false := by
    simp [fenceJsonPat, matchesAt]
    exact (no_match_head hX _).2
  rw [runPass7_ws_skip wsA _ hA]
  rw [show fencePat ++ (wsB ++ (body ++ (wsC ++ (fencePat ++ wsD)))) =
    tick :: tick :: tick :: (wsB ++ (body ++ (wsC ++ (fencePat ++ wsD)))) from rfl]
  rw [runPass_step_nomatch _ _ hm1, runPass_step_nomatch _ _ hm2, runPass_step_nomatch _ _ hm3]
  rw [runPass7_ws_skip wsB _ hB]
  rw [runPass_seg _ _ (fun s1 s2 hs hne => body_no_match7 hns hlast s1 s2 _ hs hne)]
  rw [runPass7_ws_skip wsC _ hC]
  rw [runPass7_close hD]

theorem pass2_tagged {wsA body wsC wsD : List Char}
    (hA : ∀ c ∈ wsA, pyWs c = true)
    (hC : ∀ c ∈ wsC, pyWs c = true) (hD : ∀ c ∈ wsD, pyWs c = true)
    (hns : hasSeq fencePat body = false)
    (hlast : body.getLast? ≠ some tick) :
    runPass fencePat (wsA ++ (body ++ (wsC ++ (fencePat ++ wsD)))) =
      wsA ++ (body ++ wsC) := by
  rw [runPass3_ws_skip wsA _ hA]
  rw [runPass_seg _ _ (fun s1 s2 hs hne => body_no_match hns hlast s1 s2 _ hs hne)]
  rw [runPass3_ws_skip wsC _ hC]
  rw [runPass3_match _]
  rw [dropWhile_ws_all hD, runPass_nil, List.append_nil]

theorem pass2_untagged {wsA wsB body wsC wsD : List Char}
    (hA : ∀ c ∈ wsA, pyWs c = true) (hB : ∀ c ∈ wsB, pyWs c = true)
    (hC : ∀ c ∈ wsC, pyWs c = true) (hD : ∀ c ∈ wsD, pyWs c = true)
    (hns : hasSeq fencePat body = false)
    (hhd : ∃ hc ht, body = hc :: ht ∧ pyWs hc = false ∧ hc ≠ tick ∧ hc ≠ 'j')
    (hlast : body.getLast? ≠ some tick) :
    runPass fencePat (wsA ++ (fencePat ++ (wsB ++ (body ++ (wsC ++ (fencePat ++ wsD)))))) =
      wsA ++ (body ++ wsC) := by
  rw [runPass3_ws_skip wsA _ hA]
  rw [runPass3_match _]
  rw [dropWhile_wsBody _ hB hhd]
  rw [runPass_seg _ _ (fun s1 s2 hs hne => body_no_match hns hlast s1 s2 _ hs hne)]
  rw [runPass3_ws_skip wsC _ hC]
  rw [runPass3_match _]
  rw [dropWhile_ws_all hD, runPass_nil, List.append_nil]

theorem strip_wrapped {wsA body wsC : List Char}
    (hA : ∀ c ∈ wsA, pyWs c = true) (hC : ∀ c ∈ wsC, pyWs c = true)
    (hhd : ∃ hc ht, body = hc :: ht ∧ pyWs hc = false)
    (hlastW : ∀ c, body.getLast? = some c → pyWs c = false) :
    stripChars (wsA ++ (body ++ wsC)) = body := by
  obtain ⟨hc, ht, hbody, hw⟩ := hhd
  unfold stripChars
  rw [dropWhile_ws_append _ hA]
  rw [hbody, List.cons_append, List.dropWhile_cons, if_neg (by simp [hw]), ← List.cons_append,
    ← hbody]
  rw [List.reverse_append]
  rw [dropWhile_ws_append _ (fun c hcm => hC c (List.mem_reverse.mp hcm))]
  cases hrev : body.reverse with
  | nil =>
    exfalso
    have hb : body = [] := by simpa using congrArg List.reverse hrev
    rw [hbody] at hb
    simp at hb
  | cons r0 rtl =>
    have hhead : body.reverse.head? = body.getLast? := List.head?_reverse body
    rw [hrev] at hhead
    have hlast0 : body.getLast? = some r0 := by simpa using hhead.symm
    rw [List.dropWhile_cons, if_neg (by simp [hlastW r0 hlast0])]
    rw [← hrev, List.reverse_reverse]

theorem clean_wrapped {opener wsA wsB wsC wsD : List Char} (v : Json)
    (hop : opener = fenceJsonPat ∨ opener = fencePat)
    (hA : ∀ c ∈ wsA, pyWs c = true) (hB : ∀ c ∈ wsB, pyWs c = true)
    (hC : ∀ c ∈ wsC, pyWs c = true) (hD : ∀ c ∈ wsD, pyWs c = true)
    (hns : hasSeq fencePat v.render = false) :
    stripChars (runPass fencePat (runPass fenceJsonPat
      (wsA ++ (opener ++ (wsB ++ (v.render ++ (wsC ++ (fencePat ++ wsD)))))))) = v.render := by
  obtain ⟨hc, ht, hct, hwc, -, hnt, hnj, -, -⟩ := render_head v
  obtain ⟨lc, hlc, hlnt, hlnw⟩ := render_last v
  have hhd : ∃ c t, v.render = c :: t ∧ pyWs c = false ∧ c ≠ tick ∧ c ≠ 'j' :=
    ⟨hc, ht, hct, hwc, hnt, hnj⟩
  have hlast : (v.render).getLast? ≠ some tick := by
    rw [hlc]
    simpa using hlnt
  have hlastW : ∀ c, (v.render).getLast? = some c → pyWs c = false := by
    intro c hcl
    rw [hlc] at hcl
    obtain rfl : lc = c := by simpa using hcl
    exact hlnw
  rcases hop with rfl | rfl
  · rw [pass1_tagged hA hB hC hD hns hhd hlast, pass2_tagged hA hC hD hns hlast,
      strip_wrapped hA hC ⟨hc, ht, hct, hwc⟩ hlastW]
  · rw [pass1_untagged hA hB hC hD hns hhd hlast, pass2_untagged hA hB hC hD hns hhd hlast,
      strip_wrapped hA hC ⟨hc, ht, hct, hwc⟩ hlastW]

/-- C5 (amended): for every structured value v whose rendered JSON text does not
itself contain a fence-marker sequence, rendering v, wrapping the text in fence
markers (the opening marker optionally tagged json) with arbitrary surrounding
whitespace, and running the Response Parser yields exactly v. The original
claim, quantified over all values, is refuted by
parse_response_fence_counterexample: a value whose rendered text contains the
marker sequence is mangled by the marker-removal passes. -/
theorem parse_response_roundtrip (v : Json) (opener wsA wsB wsC wsD : String)
    (hop : opener = fenceJsonStr ∨ opener = fenceStr)
    (hA : wsOnly wsA) (hB : wsOnly wsB) (hC : wsOnly wsC) (hD : wsOnly wsD)
    (hns : hasSeq fencePat v.render = false) :
    parse_response (wsA ++ opener ++ wsB ++ v.dumps ++ wsC ++ fenceStr ++ wsD) = .ok v := by
  have hdata : (wsA ++ opener ++ wsB ++ v.dumps ++ wsC ++ fenceStr ++ wsD).data =
      wsA.data ++ (opener.data ++ (wsB.data ++
        (v.render ++ (wsC.data ++ (fencePat ++ wsD.data))))) := by
    simp [String.data_append, Json.dumps, fenceStr, List.append_assoc]
  have hop2 : opener.data = fenceJsonPat ∨ opener.data = fencePat := by
    rcases hop with rfl | rfl
    · exact Or.inl rfl
    · exact Or.inr rfl
  have hclean : clean_json_response (wsA ++ opener ++ wsB ++ v.dumps ++ wsC ++ fenceStr ++ wsD) =
      v.dumps := by
    unfold clean_json_response
    rw [hdata, clean_wrapped v hop2 hA hB hC hD hns]
    rfl
  unfold parse_response
  rw [hclean]
  simp only [loads_dumps]

/-- C5 counterexample: the unamended claim fails for the mapping whose mood
value is the fence marker itself: wrapped in fences, the cleanup passes also
delete the markers inside the string literal, so parsing returns a different
mapping (mood becomes empty). -/
theorem parse_response_fence_counterexample :
    parse_response cex5Wrapped = .ok (Json.obj [("mood", Json.str "")]) ∧
      Json.obj [("mood", Json.str "")] ≠ cex5Val := by
  constructor
  · rfl
  · intro h
    have h2 := congrArg Json.dumps h
    exact absurd h2 (by decide)

theorem parse_response_roundtrip_witness :
    parse_response ("  " ++ fenceJsonStr ++ "\n" ++
        (Json.obj [("genres", Json.arr [Json.str "x"])]).dumps ++ "\n" ++ fenceStr ++ " ") =
      .ok (Json.obj [("genres", Json.arr [Json.str "x"])]) :=
  parse_response_roundtrip (Json.obj [("genres", Json.arr [Json.str "x"])])
    fenceJsonStr "  " "\n" "\n" " " (Or.inl rfl)
    (by unfold wsOnly; decide) (by unfold wsOnly; decide) (by unfold wsOnly; decide)
    (by unfold wsOnly; decide) (by decide)

/-- C8 counterexample: with one genre match among two comparable rows,
`genre_accuracy` reports accuracy 50 (a percentage), not the unscaled
quotient 1/2 the original claim asserts. -/
theorem genre_accuracy_scale_counterexample :
    (genre_accuracy
        [⟨"T", "", some okMd, some okJson, 0, true, none⟩,
         ⟨"U", "", some okMd, none, 0, true, none⟩]
        [("T", "a, x"), ("U", "z")]).matchCount = 1 ∧
      (genre_accuracy
          [⟨"T", "", some okMd, some okJson, 0, true, none⟩,
           ⟨"U", "", some okMd, none, 0, true, none⟩]
          [("T", "a, x"), ("U", "z")]).total = 2 ∧
      (genre_accuracy
          [⟨"T", "", some okMd, some okJson, 0, true, none⟩,
           ⟨"U", "", some okMd, none, 0, true, none⟩]
          [("T", "a, x"), ("U", "z")]).accuracy = 50 ∧
      (genre_accuracy
          [⟨"T", "", some okMd, some okJson, 0, true, none⟩,
           ⟨"U", "", some okMd, none, 0, true, none⟩]
          [("T", "a, x"), ("U", "z")]).accuracy ≠ 1 / 2 := by
  have hflags :
      ([⟨"T", "", some okMd, some okJson, 0, true, none⟩,
        ⟨"U", "", some okMd, none, 0, true, none⟩] : List EvalResult).filterMap
          (genreRow [("T", "a, x"), ("U", "z")]) = [true, false] := by rfl
  refine ⟨?_, ?_, ?_, ?_⟩
  · simp only [genre_accuracy, hflags]
    rfl
  · simp only [genre_accuracy, hflags]
    rfl
  · simp only [genre_accuracy, hflags]
    norm_num
  · simp only [genre_accuracy, hflags]
    norm_num
